import Mathlib

/-!
Verification of the TextQuery query-language front end and pattern-compilation
engine (`Main.py`): data model, pattern compiler, matcher, tokenizer and
recursive-descent parser, shallowly embedded in Lean.

The program delegates primitive pattern matching to the Python `re` facility.
The fragments the compiler emits use only literals (via `re.escape`), `.`,
alternation `|`, counted repetition, non-capturing and capturing groups,
lookahead `(?=...)`, the anchors `^` and `$`, and the word boundary `\b`.
We model those fragments as an abstract syntax tree `Regex` (each f-string
interpolation in the compiler corresponds to one constructor application) and
give them an executable match-set semantics `ends` mirroring the `re` module:
`ends fl s r i` is the list of positions `j` such that `r` can match the span
`s[i..j)` under flags `fl`, and `search` models the truth value of
`re.search`, namely the existence of a match starting at any position.
-/

/-- Decidable equality of `Except` results, used to evaluate the front end
on concrete inputs. -/
instance {ε α : Type} [DecidableEq ε] [DecidableEq α] : DecidableEq (Except ε α) := fun x y =>
  match x, y with
  | .ok a, .ok b =>
    if h : a = b then .isTrue (by rw [h]) else .isFalse (fun hc => h (Except.ok.inj hc))
  | .error a, .error b =>
    if h : a = b then .isTrue (by rw [h]) else .isFalse (fun hc => h (Except.error.inj hc))
  | .ok _, .error _ => .isFalse (fun hc => Except.noConfusion hc)
  | .error _, .ok _ => .isFalse (fun hc => Except.noConfusion hc)

namespace TextQuery

/-- Enum `ConditionType` of `Main.py`. -/
inductive ConditionType where
  | CONTAINS
  | STARTS_WITH
  | ENDS_WITH
  | MATCHES
  | REPEAT
deriving DecidableEq, Repr

/-- Enum `LogicType` of `Main.py`. -/
inductive LogicType where
  | AND
  | OR
deriving DecidableEq, Repr

/-- Enum `CommandType` of `Main.py`. -/
inductive CommandType where
  | FIND
  | COUNT
  | EXTRACT
deriving DecidableEq, Repr

/-- Enum `TargetType` of `Main.py`. -/
inductive TargetType where
  | LINES
  | WORDS
deriving DecidableEq, Repr

/-- Dataclass `Condition` of `Main.py`, defaults included. -/
structure Condition where
  type : ConditionType
  value : String
  negated : Bool := false
  logic : LogicType := .AND
  quantifier : Option String := none
deriving DecidableEq, Repr

/-- Dataclass `Modifiers` of `Main.py`, defaults included. -/
structure Modifiers where
  ignore_case : Bool := false
  multiline : Bool := false
  dotall : Bool := false
  whole_word : Bool := false
  context_lines : Nat := 0
deriving DecidableEq, Repr

/-- Dataclass `Query` of `Main.py`, defaults included. -/
structure Query where
  command : CommandType := .FIND
  target : TargetType := .LINES
  conditions : List Condition := []
  modifiers : Modifiers := {}
  extraction_pattern : Option String := none
  file_pattern : Option String := none
  output_format : String := "text"
deriving DecidableEq, Repr

/-! ## A model of the underlying regex facility

Only the syntax emitted by the pattern compiler is modelled.  Raw user
fragments (the value of a MATCHES condition, inserted verbatim by the
compiler) are kept as an opaque `raw` leaf: the program hands them to the
external engine unexamined, and no verified claim depends on how such a
fragment matches, so the model conservatively lets `raw` match nothing. -/

/-- Abstract syntax of the regex fragments emitted by the compiler. -/
inductive Regex where
  | lit (s : String)
  | any
  | cat (r1 r2 : Regex)
  | alt (r1 r2 : Regex)
  | rep (r : Regex) (lo : Nat) (hi : Option Nat)
  | lookahead (r : Regex)
  | group (r : Regex)
  | bol
  | eol
  | wordB
  | raw (s : String)
deriving DecidableEq, Repr

/-- Regex flags assembled by `QueryExecutor.execute` (lines 420 to 426):
re.IGNORECASE, re.MULTILINE and re.DOTALL, modelled as a record of the three
booleans rather than a bit mask. -/
structure RegexFlags where
  ignoreCase : Bool := false
  multiline : Bool := false
  dotAll : Bool := false
deriving DecidableEq, Repr

/-- Character comparison under the flags: re.IGNORECASE folds case. -/
def charEq (fl : RegexFlags) (a b : Char) : Bool :=
  if fl.ignoreCase then a.toLower == b.toLower else a == b

/-- Word characters for the boundary assertion: letters, digits, underscore
(the ASCII reading of the `\w` class, enough for the fragments at hand). -/
def isWordChar (c : Char) : Bool :=
  c.isAlphanum || c == '_'

/-- Whether the character at position `i` of `s` is a word character
(positions outside the string count as non-word). -/
def wordAt (s : List Char) (i : Nat) : Bool :=
  match s[i]? with
  | some c => isWordChar c
  | none => false

/-- The `\b` assertion holds at `i` when exactly one of the neighbouring
positions holds a word character. -/
def boundary (s : List Char) (i : Nat) : Bool :=
  (if i == 0 then false else wordAt s (i - 1)) != wordAt s i

/-- Whether `.` accepts the character at position `i`: any character, except
that a newline is refused unless re.DOTALL is set. -/
def anyOk (fl : RegexFlags) (s : List Char) (i : Nat) : Bool :=
  match s[i]? with
  | some c => fl.dotAll || !(c == '\n')
  | none => false

/-- Whether the literal `v` matches in `s` starting at `i`, comparing
characters with `charEq`. -/
def litMatch (fl : RegexFlags) (s : List Char) : List Char → Nat → Bool
  | [], _ => true
  | c :: v, i =>
    match s[i]? with
    | some c2 => charEq fl c c2 && litMatch fl s v (i + 1)
    | none => false

/-- Accumulate up to `fuel` more applications of the one-step end-position
map `f`, keeping every position reached on the way. -/
def growIter (f : Nat → List Nat) : Nat → List Nat → List Nat
  | 0, T => T
  | fuel + 1, T => growIter f fuel ((T ++ T.flatMap f).dedup)

/-- End positions after exactly `k` applications of the one-step
end-position map `f`. -/
def powT (f : Nat → List Nat) : Nat → List Nat → List Nat
  | 0, T => T
  | k + 1, T => powT f k ((T.flatMap f).dedup)

/-- Match-set semantics of the modelled fragments: the end positions of the
matches of `r` in `s` that start at position `i`, under flags `fl`.  A
counted repetition `rep r lo hi` first takes `lo` mandatory copies and then
up to `hi - lo` further ones; with no upper bound, `s.length + 1` rounds of
accumulation reach every position attainable by finitely many copies, since
end positions only move forward and are bounded by `s.length`. -/
def ends (fl : RegexFlags) (s : List Char) : Regex → Nat → List Nat
  | .lit v, i => if litMatch fl s v.data i then [i + v.length] else []
  | .any, i => if anyOk fl s i then [i + 1] else []
  | .cat r1 r2, i => ((ends fl s r1 i).flatMap (ends fl s r2)).dedup
  | .alt r1 r2, i => (ends fl s r1 i ++ ends fl s r2 i).dedup
  | .rep r lo hi, i =>
    let base := powT (ends fl s r) lo [i]
    match hi with
    | some h => growIter (ends fl s r) (h - lo) base
    | none => growIter (ends fl s r) (s.length + 1) base
  | .lookahead r, i => if (ends fl s r i).isEmpty then [] else [i]
  | .group r, i => ends fl s r i
  | .bol, i =>
    if i == 0 || (fl.multiline && (match s[i - 1]? with
      | some c => c == '\n'
      | none => false)) then [i] else []
  | .eol, i =>
    if i == s.length || ((match s[i]? with
      | some c => c == '\n'
      | none => false) && (fl.multiline || i == s.length - 1)) then [i] else []
  | .wordB, i => if boundary s i then [i] else []
  | .raw _, _ => []

/-- Model of the truth value of `re.search(r, s, flags)`: some match of `r`
starts at some position of `s`. -/
def search (fl : RegexFlags) (r : Regex) (s : String) : Bool :=
  (List.range (s.length + 1)).any (fun i => !(ends fl s.data r i).isEmpty)

/-! ## The pattern compiler (`QueryBuilder`) -/

/-- Decimal value of an ASCII digit run (the shape `int()` and the regex
count parser receive on ASCII input). -/
def digitsToNat (ds : List Char) : Nat :=
  ds.foldl (fun n c => n * 10 + (c.toNat - 48)) 0

/-- Left brace character. -/
def lbrace : Char := Char.ofNat 123

/-- Right brace character. -/
def rbrace : Char := Char.ofNat 125

/-- Model of the regex facility's reading of a counted-repetition suffix,
covering the shapes the program builds: a brace-enclosed `n`, `n,`, or
`n,m` with decimal digit runs.  Anything else is not a valid count for the
engine and yields `none`. -/
def parseQuant (q : String) : Option (Nat × Option Nat) :=
  match q.data with
  | [] => none
  | c :: rest =>
    if c = lbrace then
      let a := rest.takeWhile Char.isDigit
      let r1 := rest.dropWhile Char.isDigit
      if a = [] then none
      else if r1 = [rbrace] then some (digitsToNat a, some (digitsToNat a))
      else
        match r1 with
        | [] => none
        | c2 :: r2 =>
          if c2 = ',' then
            if r2 = [rbrace] then some (digitsToNat a, none)
            else
              let b := r2.takeWhile Char.isDigit
              let r3 := r2.dropWhile Char.isDigit
              if b = [] then none
              else if r3 = [rbrace] then some (digitsToNat a, some (digitsToNat b))
              else none
          else none
    else none

/-- The regex `.*`, written in the compiler as the string ".*". -/
def dotstar : Regex := .rep .any 0 none

/-- Method `QueryBuilder._build_condition_pattern` (lines 393 to 412).
`re.escape` applied to the condition value followed by compilation yields a
regex matching exactly that literal text, modelled as `Regex.lit`; a MATCHES
value is inserted verbatim, modelled as the opaque `Regex.raw`.  The f-string
`"(?:{text}){quantifier}"` becomes a counted repetition of the grouped text,
with the quantifier string read back by `parseQuant`.  A count the facility
cannot read (possible, since the tokenizer accepts non-ASCII decimal digits
that the regex count syntax rejects) is handled by the external engine as
literal text and is kept as the opaque `raw` leaf here. -/
def build_condition_pattern (condition : Condition) (modifiers : Modifiers) : Regex :=
  let text : Regex :=
    if condition.type = .MATCHES then .raw condition.value else .lit condition.value
  match condition.type with
  | .STARTS_WITH => .cat .bol text
  | .ENDS_WITH => .cat text .eol
  | .CONTAINS => text
  | .MATCHES => text
  | .REPEAT =>
    let quantifier := condition.quantifier.getD "\x7b1,\x7d"
    match parseQuant quantifier with
    | some (lo, hi) => .rep (.group text) lo hi
    | none => .raw quantifier

/-- The partition loop of `QueryBuilder.build_pattern` (lines 351 to 365):
each condition's pattern goes to the exclude list when negated, otherwise to
the OR bucket when its logic is OR and to the AND bucket when it is AND.
Returns (include_parts_and, include_parts_or, exclude_patterns), each in
condition order. -/
def partition_patterns (modifiers : Modifiers) : List Condition → List Regex × List Regex × List Regex
  | [] => ([], [], [])
  | condition :: rest =>
    let (pa, po, pe) := partition_patterns modifiers rest
    let pattern := build_condition_pattern condition modifiers
    if condition.negated then (pa, po, pattern :: pe)
    else if condition.logic = .OR then (pa, pattern :: po, pe)
    else (pattern :: pa, po, pe)

/-- The AND chain `"".join("(?=.*{p})" for p in ps) + ".*"` of lines 370
and 376: one lookahead per fragment, then an unconstrained `.*`. -/
def and_chain (ps : List Regex) : Regex :=
  ps.foldr (fun p acc => .cat (.lookahead (.cat dotstar p)) acc) dotstar

/-- The OR group `"|".join(ps)` of lines 372 and 380 (the compiler only
joins non-empty lists; joining the empty list gives the empty pattern). -/
def or_group : List Regex → Regex
  | [] => .lit ""
  | [p] => p
  | p :: ps => .alt p (or_group ps)

/-- Method `QueryBuilder.build_pattern` (lines 348 to 391): partition the
conditions, combine the buckets (both buckets give
`"(?:({and_chain})|({or_group}))"`, a single bucket gives the chain alone or
`"(?:{or_group})"`, no bucket gives `".*"`), then, when the whole-word
modifier is set, wrap the include pattern and every exclude pattern as
`"\b(?:{p})\b"`. -/
def build_pattern (query : Query) : Regex × List Regex :=
  let parts := partition_patterns query.modifiers query.conditions
  let include_parts_and := parts.1
  let include_parts_or := parts.2.1
  let exclude_patterns := parts.2.2
  let include_pattern :=
    if !include_parts_and.isEmpty && !include_parts_or.isEmpty then
      .group (.alt (.group (and_chain include_parts_and)) (.group (or_group include_parts_or)))
    else if !include_parts_and.isEmpty then
      and_chain include_parts_and
    else if !include_parts_or.isEmpty then
      .group (or_group include_parts_or)
    else
      dotstar
  let include_pattern :=
    if query.modifiers.whole_word then .cat (.cat .wordB (.group include_pattern)) .wordB
    else include_pattern
  let exclude_patterns :=
    if query.modifiers.whole_word then
      exclude_patterns.map (fun p => .cat (.cat .wordB (.group p)) .wordB)
    else exclude_patterns
  (include_pattern, exclude_patterns)

/-! ## The matcher (`QueryExecutor._matches_item`) -/

/-- The exclude loop of `QueryExecutor._matches_item` (lines 530 to 535):
scan the exclude patterns in order, return False on the first hit, True when
none hits. -/
def exclude_loop (item : String) (flags : RegexFlags) : List Regex → Bool
  | [] => true
  | pattern :: rest =>
    if search flags pattern item then false else exclude_loop item flags rest

/-- Method `QueryExecutor._matches_item` (lines 523 to 535): reject when the
include pattern does not match, otherwise reject exactly when some exclude
pattern matches.  A pure predicate. -/
def matches_item (item : String) (include_pattern : Regex) (exclude_patterns : List Regex) (flags : RegexFlags) : Bool :=
  if !(search flags include_pattern item) then false
  else exclude_loop item flags exclude_patterns

/-- Flag assembly of `QueryExecutor.execute` (lines 420 to 426). -/
def executeFlags (m : Modifiers) : RegexFlags :=
  { ignoreCase := m.ignore_case, multiline := m.multiline, dotAll := m.dotall }

/-- One matcher invocation as performed by `QueryExecutor.execute` (lines
419 to 429 and 467, 484): build the flags and the patterns from the query,
then test one candidate string. -/
def runMatch (query : Query) (item : String) : Bool :=
  let flags := executeFlags query.modifiers
  let patterns := build_pattern query
  matches_item item patterns.1 patterns.2 flags

/-! ## The tokenizer (`Parser._tokenize`) -/

/-- Enum `TokenType` of `Main.py`. -/
inductive TokenType where
  | KEYWORD
  | STRING
  | NUMBER
  | OPERATOR
  | IDENTIFIER
  | EOF
deriving DecidableEq, Repr

/-- Dataclass `Token` of `Main.py`. -/
structure Token where
  type : TokenType
  value : String
  line : Nat
  column : Nat
deriving DecidableEq, Repr

/-- Errors raised by the front end.  Both the tokenizer and the parser raise
Python `SyntaxError` with a formatted message; the constructors carry the
data interpolated into those messages. -/
inductive QueryError where
  | unterminatedString (line column : Nat)
  | expectedType (expected got : TokenType) (line column : Nat)
  | expectedValue (expected got : String) (line column : Nat)
deriving DecidableEq, Repr

/-- The reserved-word set `Parser.KEYWORDS`. -/
def KEYWORDS : List String :=
  ["SELECT", "FROM", "WHERE", "AND", "OR", "NOT",
   "LINES", "WORDS", "CONTAINS", "STARTS", "ENDS", "WITH",
   "MATCHES", "IGNORE", "CASE", "WHOLE", "WORD", "EXTRACT",
   "COUNT", "BEFORE", "AFTER", "CONTEXT", "AS", "JSON", "CSV",
   "AT", "LEAST", "MOST", "EXACTLY", "BETWEEN", "TIMES"]

/-- Double-quote character. -/
def dquote : Char := Char.ofNat 34

/-- Single-quote character. -/
def squote : Char := Char.ofNat 39

/-- Backslash character. -/
def bslash : Char := Char.ofNat 92

/-- Operator characters (the class scanned at line 153). -/
def isOpChar (c : Char) : Bool :=
  c == '=' || c == '<' || c == '>' || c == '!' || c == '&' || c == '|'

/-- First code points of the Unicode decimal-digit (category Nd) blocks of
the Basic Multilingual Plane, each a run of ten consecutive digits:
ASCII, Arabic-Indic, Extended Arabic-Indic, NKo, Devanagari, Bengali,
Gurmukhi, Gujarati, Oriya, Tamil, Telugu, Kannada, Malayalam, Sinhala,
Thai, Lao, Tibetan, Myanmar, Myanmar Shan, Khmer, Mongolian, Limbu,
New Tai Lue, Tai Tham Hora, Tai Tham Tham, Balinese, Sundanese, Lepcha,
Ol Chiki, Vai, Saurashtra, Kayah Li, Javanese, Myanmar Tai Laing, Cham,
Meetei Mayek and Fullwidth digits. -/
def ndBlockStarts : List Nat :=
  [0x0030, 0x0660, 0x06F0, 0x07C0, 0x0966, 0x09E6, 0x0A66, 0x0AE6, 0x0B66,
   0x0BE6, 0x0C66, 0x0CE6, 0x0D66, 0x0DE6, 0x0E50, 0x0ED0, 0x0F20, 0x1040,
   0x1090, 0x17E0, 0x1810, 0x1946, 0x19D0, 0x1A80, 0x1A90, 0x1B50, 0x1BB0,
   0x1C40, 0x1C50, 0xA620, 0xA8D0, 0xA900, 0xA9D0, 0xA9F0, 0xAA50, 0xABF0,
   0xFF10]

/-- Model of the Unicode-aware digit test `str.isdigit()` used at line 130:
any character of a decimal-digit block.  (Python additionally accepts the
rarer Numeric_Type=Digit characters such as superscripts, and astral-plane
digit blocks; those are not enumerated here.) -/
def pyIsDigit (c : Char) : Bool :=
  ndBlockStarts.any (fun s => s ≤ c.toNat && c.toNat < s + 10)

/-- Letter ranges (all characters of each inclusive range satisfy Python's
`str.isalpha()`): ASCII, Latin-1 and extended Latin, Greek, Cyrillic,
Armenian, Hebrew, Arabic, CJK ideographs, Hiragana and Katakana. -/
def alphaRanges : List (Nat × Nat) :=
  [(0x41, 0x5A), (0x61, 0x7A), (0xC0, 0xD6), (0xD8, 0xF6), (0xF8, 0x2C1),
   (0x386, 0x386), (0x388, 0x38A), (0x38C, 0x38C), (0x38E, 0x3A1),
   (0x3A3, 0x3F5), (0x3F7, 0x481), (0x48A, 0x52F), (0x531, 0x556),
   (0x561, 0x586), (0x5D0, 0x5EA), (0x620, 0x64A), (0x671, 0x6D3),
   (0x3041, 0x3096), (0x30A1, 0x30FA), (0x4E00, 0x9FFF)]

/-- Model of the Unicode-aware letter test `str.isalpha()` used at line
140, on the enumerated ranges; letters of other scripts are not enumerated
and are treated as non-letters, which only affects which runs become
IDENTIFIER tokens (no claim verified here depends on that). -/
def pyIsAlpha (c : Char) : Bool :=
  alphaRanges.any (fun r => r.1 ≤ c.toNat && c.toNat ≤ r.2)

/-- Continuation characters of a keyword or identifier run, modelling the
`isalnum() or underscore` test of line 142 (the isnumeric-only characters
Python's isalnum additionally accepts are not enumerated). -/
def isWordCont (c : Char) : Bool :=
  pyIsAlpha c || pyIsDigit c || c == '_'

/-- The quoted-string scan of `Parser._tokenize` (lines 115 to 119): run to
the matching quote, a backslash consuming the following character without
terminating the literal; the result keeps the escape characters verbatim
(only premature termination is prevented, escape sequences are not decoded).
Returns the content and the input after the closing quote, or `none` when
the quote is never closed. -/
def scanString (q : Char) : List Char → Option (List Char × List Char)
  | [] => none
  | c :: cs =>
    if c == q then some ([], cs)
    else if c == bslash then
      match cs with
      | c2 :: cs2 => (scanString q cs2).map (fun vr => (c :: c2 :: vr.1, vr.2))
      | [] => none
    else (scanString q cs).map (fun vr => (c :: vr.1, vr.2))

/-- Method `Parser._tokenize` (lines 92 to 168), as a single left-to-right
scan over the remaining characters, with line and column bookkeeping
exactly as in the source: a newline increments the line and resets the
column; every produced token carries the position of its first character.
Character classification follows Python's Unicode-aware `isdigit` and
`isalpha` through the models `pyIsDigit` and `pyIsAlpha`; upper-casing for
the keyword lookup maps the ASCII letters (no reserved word contains
anything else).
Each step consumes at least one character, so the fuel passed by `tokenize`
(text length plus one) is never exhausted; the fuel-out branch is
unreachable and returns an empty token list. -/
def tokenize0 : Nat → List Char → Nat → Nat → Except QueryError (List Token)
  | 0, _, _, _ => .ok []
  | _ + 1, [], line, column => .ok [⟨.EOF, "", line, column⟩]
  | fuel + 1, c :: cs, line, column =>
    if c == '\n' then tokenize0 fuel cs (line + 1) 1
    else if c.isWhitespace then tokenize0 fuel cs line (column + 1)
    else if c == dquote || c == squote then
      match scanString c cs with
      | some vr =>
        (tokenize0 fuel vr.2 line (column + vr.1.length + 2)).map
          (fun ts => ⟨.STRING, String.mk vr.1, line, column⟩ :: ts)
      | none => .error (.unterminatedString line column)
    else if pyIsDigit c then
      let ds := c :: cs.takeWhile pyIsDigit
      (tokenize0 fuel (cs.dropWhile pyIsDigit) line (column + ds.length)).map
        (fun ts => ⟨.NUMBER, String.mk ds, line, column⟩ :: ts)
    else if pyIsAlpha c || c == '_' then
      let ws := c :: cs.takeWhile isWordCont
      let value := String.mk ws
      let upper := String.mk (ws.map Char.toUpper)
      (tokenize0 fuel (cs.dropWhile isWordCont) line (column + ws.length)).map
        (fun ts =>
          if KEYWORDS.contains upper then ⟨.KEYWORD, upper, line, column⟩ :: ts
          else ⟨.IDENTIFIER, value, line, column⟩ :: ts)
    else if isOpChar c then
      let os := c :: cs.takeWhile isOpChar
      (tokenize0 fuel (cs.dropWhile isOpChar) line (column + os.length)).map
        (fun ts => ⟨.OPERATOR, String.mk os, line, column⟩ :: ts)
    else tokenize0 fuel cs line (column + 1)

/-- Tokenization of a whole query text, starting at line 1, column 1. -/
def tokenize (text : String) : Except QueryError (List Token) :=
  tokenize0 (text.length + 1) text.data 1 1

/-! ## The parser (`Parser`)

The source keeps the token list and a cursor `pos`, with `current_token`
the token at the cursor and `_advance` clamping at the final EOF token
(lines 170 to 176).  The embedding carries the remaining suffix of the
token list instead: the head is the current token and advancing keeps the
last element, which is the EOF token for every list the tokenizer
produces. -/

/-- The current token (`self.current_token`).  The empty suffix cannot
arise from tokenized input, which always ends with an EOF token; an EOF
token is returned as fallback. -/
def currentToken : List Token → Token
  | [] => ⟨.EOF, "", 0, 0⟩
  | t :: _ => t

/-- Method `Parser._advance` (lines 170 to 176): move on, staying on the
final token once it is reached. -/
def advanceTokens : List Token → List Token
  | [] => []
  | [t] => [t]
  | _ :: t :: rest => t :: rest

/-- Method `Parser._expect` (lines 178 to 188): require the current token
to have the given type, and the given value when one is supplied; return it
and advance. -/
def expectTok (tt : TokenType) (v : Option String) (ts : List Token) : Except QueryError (Token × List Token) :=
  if (currentToken ts).type ≠ tt then
    .error (.expectedType tt (currentToken ts).type (currentToken ts).line (currentToken ts).column)
  else
    match v with
    | some val =>
      if (currentToken ts).value ≠ val then
        .error (.expectedValue val (currentToken ts).value (currentToken ts).line (currentToken ts).column)
      else .ok (currentToken ts, advanceTokens ts)
    | none => .ok (currentToken ts, advanceTokens ts)

/-- Method `Parser._optional` (lines 190 to 196): consume and return the
current token when it matches, otherwise leave the state unchanged. -/
def optionalTok (tt : TokenType) (v : Option String) (ts : List Token) : Option Token × List Token :=
  if (currentToken ts).type = tt ∧ (v = none ∨ v = some (currentToken ts).value) then
    (some (currentToken ts), advanceTokens ts)
  else (none, ts)

/-- The quantifier block of `Parser._parse_condition` (lines 287 to 311):
AT LEAST n [TIMES], AT MOST n [TIMES], EXACTLY n [TIMES] and
BETWEEN a AND b [TIMES] build the quantifier strings `{n,}`, `{0,n}`,
`{n}` and `{a,b}` and force the condition type to REPEAT; with no prefix
present the incoming type and an absent quantifier are kept. -/
def parseQuantPrefix (ctype : ConditionType) (ts0 : List Token) : Except QueryError (ConditionType × Option String × List Token) :=
  match optionalTok .KEYWORD (some "AT") ts0 with
  | (some _, ts) =>
    (match optionalTok .KEYWORD (some "LEAST") ts with
    | (some _, ts) => do
      let (numTok, ts) ← expectTok .NUMBER none ts
      let (_, ts) := optionalTok .KEYWORD (some "TIMES") ts
      pure (ConditionType.REPEAT, some ("\x7b" ++ numTok.value ++ ",\x7d"), ts)
    | (none, _) =>
      match optionalTok .KEYWORD (some "MOST") ts with
      | (some _, ts) => do
        let (numTok, ts) ← expectTok .NUMBER none ts
        let (_, ts) := optionalTok .KEYWORD (some "TIMES") ts
        pure (ConditionType.REPEAT, some ("\x7b0," ++ numTok.value ++ "\x7d"), ts)
      | (none, ts) => pure (ctype, none, ts))
  | (none, _) =>
    match optionalTok .KEYWORD (some "EXACTLY") ts0 with
    | (some _, ts) => do
      let (numTok, ts) ← expectTok .NUMBER none ts
      let (_, ts) := optionalTok .KEYWORD (some "TIMES") ts
      pure (ConditionType.REPEAT, some ("\x7b" ++ numTok.value ++ "\x7d"), ts)
    | (none, _) =>
      match optionalTok .KEYWORD (some "BETWEEN") ts0 with
      | (some _, ts) => do
        let (lowTok, ts) ← expectTok .NUMBER none ts
        let (_, ts) ← expectTok .KEYWORD (some "AND") ts
        let (highTok, ts) ← expectTok .NUMBER none ts
        let (_, ts) := optionalTok .KEYWORD (some "TIMES") ts
        pure (ConditionType.REPEAT, some ("\x7b" ++ lowTok.value ++ "," ++ highTok.value ++ "\x7d"), ts)
      | (none, ts) => pure (ctype, none, ts)

/-- The condition-kind block of `Parser._parse_condition` (lines 272 to
285): an optional CONTAINS / STARTS WITH / ENDS WITH / MATCHES keyword,
defaulting to CONTAINS. -/
def parse_kind (ts0 : List Token) : Except QueryError (ConditionType × List Token) :=
  match optionalTok .KEYWORD (some "CONTAINS") ts0 with
  | (some _, ts) => .ok (ConditionType.CONTAINS, ts)
  | (none, _) =>
    match optionalTok .KEYWORD (some "STARTS") ts0 with
    | (some _, ts) =>
      (match expectTok .KEYWORD (some "WITH") ts with
      | .error e => .error e
      | .ok (_, ts) => .ok (ConditionType.STARTS_WITH, ts))
    | (none, _) =>
      match optionalTok .KEYWORD (some "ENDS") ts0 with
      | (some _, ts) =>
        (match expectTok .KEYWORD (some "WITH") ts with
        | .error e => .error e
        | .ok (_, ts) => .ok (ConditionType.ENDS_WITH, ts))
      | (none, _) =>
        match optionalTok .KEYWORD (some "MATCHES") ts0 with
        | (some _, ts) => .ok (ConditionType.MATCHES, ts)
        | (none, ts) => .ok (ConditionType.CONTAINS, ts)

/-- Method `Parser._parse_condition` (lines 270 to 320): an optional
condition-kind keyword (default CONTAINS), the optional quantifier prefix,
then the mandatory string literal.  The built condition keeps the dataclass
defaults `negated = False` and `logic = AND`. -/
def parse_condition (ts0 : List Token) : Except QueryError (Condition × List Token) := do
  let (ctype1, ts1) ← parse_kind ts0
  let (ctype2, quantifier, ts2) ← parseQuantPrefix ctype1 ts1
  let (value_token, ts3) ← expectTok .STRING none ts2
  pure ({ type := ctype2, value := value_token.value, quantifier := quantifier }, ts3)

/-- The connector loop of `Parser._parse_conditions` (lines 253 to 266):
while the current token is AND or OR, consume it, optionally consume NOT,
parse the next condition and attach the connector logic and the negation
flag to it.  Each iteration consumes at least two tokens, so the fuel
passed by `parse_conditions` is never exhausted; the fuel-out branch
returns the conditions collected so far. -/
def parse_conditions_loop : Nat → List Condition → List Token → Except QueryError (List Condition × List Token)
  | 0, conditions, ts => .ok (conditions, ts)
  | fuel + 1, conditions, ts =>
    let ct := currentToken ts
    if ct.type = .KEYWORD ∧ (ct.value = "AND" ∨ ct.value = "OR") then
      let logic := if ct.value = "AND" then LogicType.AND else LogicType.OR
      let ts := advanceTokens ts
      let (negTok, ts) := optionalTok .KEYWORD (some "NOT") ts
      let negated := negTok.isSome
      match parse_condition ts with
      | .error e => .error e
      | .ok (next_condition, ts) =>
        parse_conditions_loop fuel (conditions ++ [{ next_condition with logic := logic, negated := negated }]) ts
    else .ok (conditions, ts)

/-- Method `Parser._parse_conditions` (lines 245 to 268): one mandatory
condition, then the connector loop. -/
def parse_conditions (ts : List Token) : Except QueryError (List Condition × List Token) := do
  let (condition, ts1) ← parse_condition ts
  parse_conditions_loop ts1.length [condition] ts1

/-- Method `Parser._parse_modifiers` (lines 322 to 344): repeatedly consume
IGNORE [CASE], WHOLE [WORD], MULTILINE, DOTALL or CONTEXT n, updating the
query's modifiers, until no modifier keyword is current.  Every iteration
consumes at least one token, so the fuel passed by `parseTokens` is never
exhausted; the fuel-out branch returns the query unchanged. -/
def parse_modifiers_loop : Nat → Query → List Token → Except QueryError (Query × List Token)
  | 0, query, ts => .ok (query, ts)
  | fuel + 1, query, ts =>
    match optionalTok .KEYWORD (some "IGNORE") ts with
    | (some _, ts) =>
      (match optionalTok .KEYWORD (some "CASE") ts with
      | (some _, ts) =>
        parse_modifiers_loop fuel { query with modifiers := { query.modifiers with ignore_case := true } } ts
      | (none, ts) => parse_modifiers_loop fuel query ts)
    | (none, _) =>
    match optionalTok .KEYWORD (some "WHOLE") ts with
    | (some _, ts) =>
      (match optionalTok .KEYWORD (some "WORD") ts with
      | (some _, ts) =>
        parse_modifiers_loop fuel { query with modifiers := { query.modifiers with whole_word := true } } ts
      | (none, ts) => parse_modifiers_loop fuel query ts)
    | (none, _) =>
    match optionalTok .KEYWORD (some "MULTILINE") ts with
    | (some _, ts) =>
      parse_modifiers_loop fuel { query with modifiers := { query.modifiers with multiline := true } } ts
    | (none, _) =>
    match optionalTok .KEYWORD (some "DOTALL") ts with
    | (some _, ts) =>
      parse_modifiers_loop fuel { query with modifiers := { query.modifiers with dotall := true } } ts
    | (none, _) =>
    match optionalTok .KEYWORD (some "CONTEXT") ts with
    | (some _, ts) =>
      (match expectTok .NUMBER none ts with
      | .error e => .error e
      | .ok (numTok, ts) =>
        parse_modifiers_loop fuel { query with modifiers := { query.modifiers with context_lines := digitsToNat numTok.value.data } } ts)
    | (none, ts) => .ok (query, ts)

/-- The COUNT / EXTRACT block of `Parser.parse` (lines 205 to 212). -/
def parse_command (query : Query) (ts : List Token) : Except QueryError (Query × List Token) :=
  match optionalTok .KEYWORD (some "COUNT") ts with
  | (some _, ts) => .ok ({ query with command := CommandType.COUNT }, ts)
  | (none, _) =>
    match optionalTok .KEYWORD (some "EXTRACT") ts with
    | (some _, ts) =>
      (match expectTok .STRING none ts with
      | .error e => .error e
      | .ok (pattern_token, ts) =>
        .ok ({ query with command := CommandType.EXTRACT, extraction_pattern := some pattern_token.value }, ts))
    | (none, ts) => .ok (query, ts)

/-- The LINES / WORDS target block of `Parser.parse` (lines 214 to 221),
default LINES. -/
def parse_target (query : Query) (ts : List Token) : Query × List Token :=
  match optionalTok .KEYWORD (some "LINES") ts with
  | (some _, ts) => ({ query with target := TargetType.LINES }, ts)
  | (none, _) =>
    match optionalTok .KEYWORD (some "WORDS") ts with
    | (some _, ts) => ({ query with target := TargetType.WORDS }, ts)
    | (none, ts) => ({ query with target := TargetType.LINES }, ts)

/-- The FROM block of `Parser.parse` (lines 223 to 227): the mandatory FROM
keyword, then a file string exactly when the current token is a string. -/
def parse_from (query : Query) (ts : List Token) : Except QueryError (Query × List Token) :=
  match expectTok .KEYWORD (some "FROM") ts with
  | .error e => .error e
  | .ok (_, ts) =>
    if (currentToken ts).type = TokenType.STRING then
      match expectTok .STRING none ts with
      | .error e => .error e
      | .ok (file_token, ts) => .ok ({ query with file_pattern := some file_token.value }, ts)
    else .ok (query, ts)

/-- The WHERE block of `Parser.parse` (lines 229 to 231). -/
def parse_where (query : Query) (ts : List Token) : Except QueryError (Query × List Token) :=
  match optionalTok .KEYWORD (some "WHERE") ts with
  | (some _, ts) =>
    (match parse_conditions ts with
    | .error e => .error e
    | .ok (conditions, ts) => .ok ({ query with conditions := conditions }, ts))
  | (none, ts) => .ok (query, ts)

/-- The AS JSON / AS CSV output block of `Parser.parse` (lines 236 to 241). -/
def parse_as (query : Query) (ts : List Token) : Query × List Token :=
  match optionalTok .KEYWORD (some "AS") ts with
  | (some _, ts) =>
    (match optionalTok .KEYWORD (some "JSON") ts with
    | (some _, ts) => ({ query with output_format := "json" }, ts)
    | (none, _) =>
      match optionalTok .KEYWORD (some "CSV") ts with
      | (some _, ts) => ({ query with output_format := "csv" }, ts)
      | (none, ts) => (query, ts))
  | (none, ts) => (query, ts)

/-- Method `Parser.parse` (lines 198 to 243): SELECT, an optional COUNT or
EXTRACT "pattern", an optional LINES or WORDS target (default LINES), the
mandatory FROM with an optional file string, an optional WHERE clause, the
modifier loop, and an optional AS JSON or AS CSV output clause. -/
def parseTokens (ts : List Token) : Except QueryError Query := do
  let query : Query := {}
  let (_, ts) ← expectTok .KEYWORD (some "SELECT") ts
  let (query, ts) ← parse_command query ts
  let (query, ts) := parse_target query ts
  let (query, ts) ← parse_from query ts
  let (query, ts) ← parse_where query ts
  let (query, ts) ← parse_modifiers_loop ts.length query ts
  let (query, _) := parse_as query ts
  pure query

/-- The whole front end: `Parser.__init__` tokenizes (line 88), and only
then does `Parser.parse` consume the tokens; a tokenizer error therefore
surfaces before any parsing happens. -/
def parseQuery (text : String) : Except QueryError Query := do
  let tokens ← tokenize text
  parseTokens tokens

/-! ## General lemmas about the match-set semantics -/

theorem mem_ends_cat {fl : RegexFlags} {s : List Char} {r1 r2 : Regex} {i j : Nat} :
    j ∈ ends fl s (.cat r1 r2) i ↔ ∃ m ∈ ends fl s r1 i, j ∈ ends fl s r2 m := by
  simp [ends, List.mem_dedup, List.mem_flatMap]

theorem ends_lookahead_of_ne {fl : RegexFlags} {s : List Char} {r : Regex} {i : Nat}
    (h : ends fl s r i ≠ []) : ends fl s (.lookahead r) i = [i] := by
  simp [ends, List.isEmpty_iff, h]

theorem ends_lookahead_of_eq {fl : RegexFlags} {s : List Char} {r : Regex} {i : Nat}
    (h : ends fl s r i = []) : ends fl s (.lookahead r) i = [] := by
  simp [ends, List.isEmpty_iff, h]

theorem search_iff {fl : RegexFlags} {r : Regex} {s : String} :
    search fl r s = true ↔ ∃ i, i ≤ s.length ∧ ends fl s.data r i ≠ [] := by
  simp [search, List.any_eq_true, List.mem_range, Nat.lt_succ_iff, List.isEmpty_iff,
    and_comm]

theorem subset_growIter (f : Nat → List Nat) :
    ∀ (fuel : Nat) (T : List Nat), ∀ a ∈ T, a ∈ growIter f fuel T := by
  intro fuel
  induction fuel with
  | zero => intro T a ha; simpa [growIter] using ha
  | succ n ih =>
    intro T a ha
    simp only [growIter]
    exact ih _ a (by simp [List.mem_dedup]; exact Or.inl ha)

/-- Reachability in exactly `d` applications of a one-step end-position
map. -/
inductive NSteps (f : Nat → List Nat) : Nat → Nat → Nat → Prop where
  | zero (a : Nat) : NSteps f 0 a a
  | succ {a b c : Nat} {d : Nat} (hab : b ∈ f a) (h : NSteps f d b c) : NSteps f (d + 1) a c

theorem growIter_complete (f : Nat → List Nat) :
    ∀ (fuel d a b : Nat) (T : List Nat), a ∈ T → d ≤ fuel → NSteps f d a b →
      b ∈ growIter f fuel T := by
  intro fuel
  induction fuel with
  | zero =>
    intro d a b T ha hd h
    have hd0 : d = 0 := Nat.le_zero.mp hd
    subst hd0
    cases h
    simpa [growIter] using ha
  | succ n ih =>
    intro d a b T ha hd h
    cases h with
    | zero => exact subset_growIter f _ T _ ha
    | succ hab h2 =>
      simp only [growIter]
      refine ih _ _ _ _ ?_ (by omega) h2
      simp only [List.mem_dedup, List.mem_append, List.mem_flatMap]
      exact Or.inr ⟨a, ha, hab⟩

theorem growIter_sound (f : Nat → List Nat) (R : Nat → Prop)
    (hf : ∀ a b, R a → b ∈ f a → R b) :
    ∀ (fuel : Nat) (T : List Nat), (∀ a ∈ T, R a) → ∀ b ∈ growIter f fuel T, R b := by
  intro fuel
  induction fuel with
  | zero => intro T hT b hb; exact hT b (by simpa [growIter] using hb)
  | succ n ih =>
    intro T hT b hb
    simp only [growIter] at hb
    refine ih _ ?_ b hb
    intro a ha
    simp only [List.mem_dedup, List.mem_append, List.mem_flatMap] at ha
    rcases ha with ha | ⟨a0, ha0, ha1⟩
    · exact hT a ha
    · exact hf a0 a (hT a0 ha0) ha1

theorem mem_ends_dotstar_self (fl : RegexFlags) (s : List Char) (i : Nat) :
    i ∈ ends fl s dotstar i := by
  simp only [dotstar, ends, powT]
  exact subset_growIter _ _ _ i (by simp)

theorem mem_ends_dotstar (fl : RegexFlags) (s : List Char) {i j : Nat}
    (hij : i ≤ j) (hj : j ≤ s.length)
    (hok : ∀ k, i ≤ k → k < j → anyOk fl s k = true) :
    j ∈ ends fl s dotstar i := by
  have hchain : ∀ (d i' : Nat), i' + d = j → i ≤ i' →
      NSteps (ends fl s .any) d i' j := by
    intro d
    induction d with
    | zero => intro i' h _; simpa [Nat.add_zero] using (h ▸ NSteps.zero i')
    | succ n ih =>
      intro i' h hi'
      have hk : anyOk fl s i' = true := hok i' hi' (by omega)
      have hstep : (i' + 1) ∈ ends fl s .any i' := by simp [ends, hk]
      exact NSteps.succ hstep (ih (i' + 1) (by omega) (by omega))
  simp only [dotstar, ends, powT]
  exact growIter_complete _ _ (j - i) i j [i] (by simp) (by omega)
    (hchain (j - i) i (by omega) le_rfl)

theorem charEq_refl (fl : RegexFlags) (c : Char) : charEq fl c c = true := by
  simp [charEq]

theorem litMatch_of_drop (fl : RegexFlags) (s : List Char) :
    ∀ (v : List Char) (i : Nat), (∃ t, s.drop i = v ++ t) → litMatch fl s v i = true := by
  intro v
  induction v with
  | nil => intro i _; rfl
  | cons c v ih =>
    intro i h
    obtain ⟨t, ht⟩ := h
    have hi : s[i]? = some c := by
      have h0 : (s.drop i)[0]? = some c := by rw [ht]; simp
      rwa [List.getElem?_drop, Nat.add_zero] at h0
    have hnext : ∃ t, s.drop (i + 1) = v ++ t := by
      refine ⟨t, ?_⟩
      have : s.drop (i + 1) = (s.drop i).drop 1 := by
        rw [List.drop_drop, Nat.add_comm]
      rw [this, ht]
      rfl
    simp [litMatch, hi, charEq_refl, ih _ hnext]

theorem litMatch_default_drop (s : List Char) :
    ∀ (v : List Char) (i : Nat), litMatch {} s v i = true → ∃ t, s.drop i = v ++ t := by
  intro v
  induction v with
  | nil => intro i _; exact ⟨s.drop i, rfl⟩
  | cons c v ih =>
    intro i h
    simp only [litMatch] at h
    rcases hi : s[i]? with _ | c2
    · rw [hi] at h; exact absurd h (by simp)
    · rw [hi] at h
      simp only [Bool.and_eq_true] at h
      have hc : c = c2 := by
        have := h.1
        simpa [charEq] using this
      obtain ⟨t, ht⟩ := ih _ h.2
      have hlt : i < s.length := by
        rcases List.getElem?_eq_some.mp hi with ⟨hw, _⟩
        exact hw
      refine ⟨t, ?_⟩
      rw [List.drop_eq_getElem_cons hlt, ht]
      have : s[i] = c2 := by
        rcases List.getElem?_eq_some.mp hi with ⟨_, he⟩
        exact he
      rw [this, hc]
      rfl

/-- Claim-side notion of a contiguous occurrence: `v` occurs somewhere
inside `s`. -/
def substring (v s : List Char) : Prop := ∃ pre suf, s = pre ++ v ++ suf

theorem substring_iff_drop {v s : List Char} :
    substring v s ↔ ∃ i, i ≤ s.length ∧ ∃ t, s.drop i = v ++ t := by
  constructor
  · rintro ⟨pre, suf, rfl⟩
    refine ⟨pre.length, by simp, suf, ?_⟩
    rw [List.append_assoc, List.drop_left]
  · rintro ⟨i, hi, t, ht⟩
    exact ⟨s.take i, t, by rw [List.append_assoc, ← ht, List.take_append_drop]⟩

theorem search_lit_of_substring (fl : RegexFlags) (v s : String)
    (h : substring v.data s.data) : search fl (.lit v) s = true := by
  obtain ⟨i, hi, t, ht⟩ := substring_iff_drop.mp h
  refine search_iff.mpr ⟨i, ?_, ?_⟩
  · have : s.length = s.data.length := rfl
    omega
  · simp only [ends, litMatch_of_drop fl s.data v.data i ⟨t, ht⟩]
    simp

/-! ## Claim C1 -/

theorem exclude_loop_iff (item : String) (flags : RegexFlags) :
    ∀ l : List Regex, exclude_loop item flags l = true ↔
      ∀ p ∈ l, search flags p item = false := by
  intro l
  induction l with
  | nil => simp [exclude_loop]
  | cons p rest ih =>
    simp only [exclude_loop]
    by_cases h : search flags p item = true
    · simp [h]
    · simp only [Bool.not_eq_true] at h
      simp [h, ih]

/-- C1: `QueryExecutor._matches_item` returns True exactly when the item
matches the include pattern under the flags and matches none of the exclude
patterns under the same flags; it is a pure Boolean-valued function of its
arguments. -/
theorem c1_matches_item_iff (item : String) (include_pattern : Regex)
    (exclude_patterns : List Regex) (flags : RegexFlags) :
    matches_item item include_pattern exclude_patterns flags = true ↔
      (search flags include_pattern item = true ∧
        ∀ p ∈ exclude_patterns, search flags p item = false) := by
  simp only [matches_item]
  by_cases h : search flags include_pattern item = true
  · simp [h, exclude_loop_iff]
  · simp only [Bool.not_eq_true] at h
    simp [h]

/-! ## Claim C2 -/

/-- C2 counterexample: the claim says that under WHOLE WORD the candidate
"concatenate" does not match `CONTAINS "cat"`; in fact the word-boundary
anchors wrap the whole include pattern `(?=.*cat).*`, whose trailing `.*`
extends to a word boundary, so "concatenate" still matches. -/
theorem c2_counterexample :
    (parseQuery "SELECT LINES FROM \"f\" WHERE CONTAINS \"cat\" WHOLE WORD").map
      (fun q => runMatch q "concatenate") = .ok true := by
  decide

/-- C2 (amended): without WHOLE WORD, `CONTAINS "cat"` matches
"concatenate"; with WHOLE WORD it matches "the cat sat" and it also still
matches "concatenate", because the word-boundary wrapping is applied around
the outermost pattern (which ends in `.*`) rather than around the fragment. -/
theorem c2_amended :
    (parseQuery "SELECT LINES FROM \"f\" WHERE CONTAINS \"cat\"").map
      (fun q => runMatch q "concatenate") = .ok true ∧
    (parseQuery "SELECT LINES FROM \"f\" WHERE CONTAINS \"cat\" WHOLE WORD").map
      (fun q => runMatch q "the cat sat") = .ok true ∧
    (parseQuery "SELECT LINES FROM \"f\" WHERE CONTAINS \"cat\" WHOLE WORD").map
      (fun q => runMatch q "concatenate") = .ok true := by
  refine ⟨by decide, by decide, by decide⟩

/-! ## Claim C3 -/

/-- C3 counterexample: the claim says `EXACTLY 3 TIMES "ab"` does not match
"abababab"; in fact the compiled fragment `(?:ab){3}` is unanchored and
"abababab" contains the contiguous substring "ababab", so it matches. -/
theorem c3_counterexample :
    (parseQuery "SELECT LINES FROM \"f\" WHERE EXACTLY 3 TIMES \"ab\"").map
      (fun q => runMatch q "abababab") = .ok true := by
  decide

/-- C3 (amended): `EXACTLY 3 TIMES "ab"` matches "ababab" and does not
match "abab"; it also matches "abababab", since the quantified group is
applied to a contiguous repeated unit but is not anchored, so any candidate
containing three contiguous copies matches. -/
theorem c3_amended :
    (parseQuery "SELECT LINES FROM \"f\" WHERE EXACTLY 3 TIMES \"ab\"").map
      (fun q => runMatch q "ababab") = .ok true ∧
    (parseQuery "SELECT LINES FROM \"f\" WHERE EXACTLY 3 TIMES \"ab\"").map
      (fun q => runMatch q "abab") = .ok false ∧
    (parseQuery "SELECT LINES FROM \"f\" WHERE EXACTLY 3 TIMES \"ab\"").map
      (fun q => runMatch q "abababab") = .ok true := by
  refine ⟨by decide, by decide, by decide⟩

/-! ## Claim C8 -/

theorem search_dotstar (fl : RegexFlags) (s : String) : search fl dotstar s = true :=
  search_iff.mpr ⟨0, Nat.zero_le _, List.ne_nil_of_mem (mem_ends_dotstar_self fl s.data 0)⟩

/-- C8 counterexample: the claim says a query with an empty condition list
matches every candidate under the query's modifiers; but with WHOLE WORD
set the include pattern `.*` is wrapped as `\b(?:.*)\b`, and the empty
candidate has no word boundary, so the matcher rejects it. -/
theorem c8_counterexample :
    (parseQuery "SELECT LINES FROM \"f\" WHOLE WORD").map Query.conditions = .ok [] ∧
    (parseQuery "SELECT LINES FROM \"f\" WHOLE WORD").map (fun q => runMatch q "") = .ok false := by
  refine ⟨by decide, by decide⟩

/-- C8 (amended): for every query whose condition list is empty and whose
whole-word modifier is off, the include pattern is `.*`, there are no
exclude patterns, and the matcher accepts every candidate string under the
query's remaining modifiers. -/
theorem c8_amended (q : Query) (hc : q.conditions = []) (hww : q.modifiers.whole_word = false)
    (item : String) : runMatch q item = true := by
  have hbp : build_pattern q = (dotstar, []) := by
    unfold build_pattern
    rw [hc, hww]
    rfl
  simp only [runMatch, hbp, matches_item, search_dotstar, Bool.not_true, Bool.false_eq_true,
    if_false]
  rfl

/-- C8 witness: the default query (empty conditions, no modifiers) accepts
an arbitrary candidate. -/
theorem c8_witness : runMatch {} "anything at all" = true :=
  c8_amended {} rfl rfl "anything at all"

/-! ## Claim C5 -/

theorem build_condition_pattern_contains (c : Condition) (m : Modifiers)
    (h : c.type = .CONTAINS) : build_condition_pattern c m = .lit c.value := by
  unfold build_condition_pattern
  rw [h]
  rfl

theorem mem_partition_exclude (m : Modifiers) :
    ∀ (cs : List Condition) (c : Condition), c ∈ cs → c.negated = true →
      build_condition_pattern c m ∈ (partition_patterns m cs).2.2 := by
  intro cs
  induction cs with
  | nil => intro c h; cases h
  | cons c0 cs ih =>
    intro c hmem hneg
    rcases hp : partition_patterns m cs with ⟨pa, po, pe⟩
    rcases List.mem_cons.mp hmem with rfl | h2
    · simp [partition_patterns, hp, hneg]
    · have hrec := ih c h2 hneg
      rw [hp] at hrec
      by_cases h0 : c0.negated = true
      · simp [partition_patterns, hp, h0, hrec]
      · simp only [Bool.not_eq_true] at h0
        by_cases h1 : c0.logic = .OR
        · simp [partition_patterns, hp, h0, h1, hrec]
        · simp [partition_patterns, hp, h0, h1, hrec]

theorem exclude_loop_false_of_mem (item : String) (flags : RegexFlags) :
    ∀ (l : List Regex) (p : Regex), p ∈ l → search flags p item = true →
      exclude_loop item flags l = false := by
  intro l
  induction l with
  | nil => intro p h; cases h
  | cons p0 rest ih =>
    intro p hmem hs
    rcases List.mem_cons.mp hmem with rfl | h2
    · simp [exclude_loop, hs]
    · simp only [exclude_loop]
      by_cases h0 : search flags p0 item = true
      · simp [h0]
      · simp only [Bool.not_eq_true] at h0
        simp [h0, ih p h2 hs]

/-- C5 counterexample: the claim says a candidate containing a negated
fragment's text never matches; here the second condition is
NOT STARTS WITH "err", whose exclude pattern `^err` is anchored, so the
candidate "xerr" contains the text "err" yet still matches. -/
theorem c5_counterexample :
    (parseQuery "SELECT LINES FROM \"f\" WHERE CONTAINS \"x\" AND NOT STARTS WITH \"err\"").map
      Query.conditions = .ok [{ type := .CONTAINS, value := "x" },
        { type := .STARTS_WITH, value := "err", negated := true }] ∧
    substring "err".data "xerr".data ∧
    (parseQuery "SELECT LINES FROM \"f\" WHERE CONTAINS \"x\" AND NOT STARTS WITH \"err\"").map
      (fun q => runMatch q "xerr") = .ok true := by
  refine ⟨by decide, ⟨['x'], [], by decide⟩, by decide⟩

/-- C5 (amended): for every compiled query with the whole-word modifier off
and a negated condition of kind CONTAINS, a candidate string containing
that condition's text as a contiguous substring never matches, regardless
of the include pattern's outcome on it.  (The counterexample shows the
original unrestricted statement fails for anchored negated kinds such as
STARTS WITH; the whole-word wrapping of exclude patterns can likewise
defeat it, since `\b(?:text)\b` no longer fires on embedded occurrences.) -/
theorem c5_amended (q : Query) (c : Condition) (item : String)
    (hww : q.modifiers.whole_word = false)
    (hmem : c ∈ q.conditions) (hneg : c.negated = true) (hty : c.type = .CONTAINS)
    (hsub : substring c.value.data item.data) :
    runMatch q item = false := by
  have hexc : Regex.lit c.value ∈ (build_pattern q).2 := by
    have h0 := mem_partition_exclude q.modifiers q.conditions c hmem hneg
    rw [build_condition_pattern_contains c q.modifiers hty] at h0
    unfold build_pattern
    rw [hww]
    simpa using h0
  have hs : search (executeFlags q.modifiers) (.lit c.value) item = true :=
    search_lit_of_substring _ _ _ hsub
  simp only [runMatch, matches_item]
  by_cases hinc : search (executeFlags q.modifiers) (build_pattern q).1 item = true
  · simp only [hinc, Bool.not_true, Bool.false_eq_true, if_false]
    exact exclude_loop_false_of_mem item _ _ _ hexc hs
  · simp only [Bool.not_eq_true] at hinc
    simp [hinc]

/-- C5 witness: a query with a negated CONTAINS "y" condition rejects the
candidate "xy". -/
theorem c5_witness :
    runMatch { conditions := [{ type := .CONTAINS, value := "x" },
      { type := .CONTAINS, value := "y", negated := true }] } "xy" = false :=
  c5_amended _ { type := .CONTAINS, value := "y", negated := true } "xy" rfl
    (by decide) rfl rfl ⟨['x'], [], rfl⟩

/-! ## Claim C4 -/

theorem partition_all_and (m : Modifiers) :
    ∀ cs : List Condition, (∀ c ∈ cs, c.type = .CONTAINS ∧ c.negated = false ∧ c.logic = .AND) →
      partition_patterns m cs = (cs.map (fun c => Regex.lit c.value), [], []) := by
  intro cs
  induction cs with
  | nil => intro _; rfl
  | cons c cs ih =>
    intro h
    have hc := h c (List.mem_cons_self c cs)
    have hrest := ih (fun c2 h2 => h c2 (List.mem_cons_of_mem c h2))
    have hpat := build_condition_pattern_contains c m hc.1
    simp [partition_patterns, hrest, hc.2.1, hc.2.2, hpat]

theorem ends_and_chain_ne (fl : RegexFlags) (s : List Char) (i : Nat) :
    ∀ ps : List Regex, (∀ p ∈ ps, ends fl s (.cat dotstar p) i ≠ []) →
      ends fl s (and_chain ps) i ≠ [] := by
  intro ps
  induction ps with
  | nil =>
    intro _
    exact List.ne_nil_of_mem (mem_ends_dotstar_self fl s i)
  | cons p ps ih =>
    intro h
    have h1 : ends fl s (.cat dotstar p) i ≠ [] := h p (List.mem_cons_self p ps)
    have h2 : ends fl s (and_chain ps) i ≠ [] := ih (fun q hq => h q (List.mem_cons_of_mem p hq))
    obtain ⟨j, hj⟩ := List.exists_mem_of_ne_nil _ h2
    have hla : ends fl s (.lookahead (.cat dotstar p)) i = [i] := ends_lookahead_of_ne h1
    refine List.ne_nil_of_mem (a := j) ?_
    show j ∈ ends fl s (.cat (.lookahead (.cat dotstar p)) (and_chain ps)) i
    exact mem_ends_cat.mpr ⟨i, by rw [hla]; exact List.mem_singleton_self i, hj⟩

theorem ends_and_chain_eq_nil (fl : RegexFlags) (s : List Char) (p : Regex)
    (h : ∀ i, ends fl s (.cat dotstar p) i = []) :
    ∀ ps : List Regex, p ∈ ps → ∀ i, ends fl s (and_chain ps) i = [] := by
  intro ps
  induction ps with
  | nil => intro h0; cases h0
  | cons q ps ih =>
    intro hmem i
    rcases List.mem_cons.mp hmem with rfl | h2
    · show ends fl s (.cat (.lookahead (.cat dotstar p)) (and_chain ps)) i = []
      rw [List.eq_nil_iff_forall_not_mem]
      intro j hj
      obtain ⟨m, hm, _⟩ := mem_ends_cat.mp hj
      rw [ends_lookahead_of_eq (h i)] at hm
      cases hm
    · show ends fl s (.cat (.lookahead (.cat dotstar q)) (and_chain ps)) i = []
      rw [List.eq_nil_iff_forall_not_mem]
      intro j hj
      obtain ⟨m, _, hjm⟩ := mem_ends_cat.mp hj
      rw [ih h2 m] at hjm
      cases hjm

theorem ends_cat_dotstar_lit_of_substring (fl : RegexFlags) (s : String) (v : String)
    (hnl : ∀ ch ∈ s.data, ch ≠ '\n') (hsub : substring v.data s.data) :
    ends fl s.data (.cat dotstar (.lit v)) 0 ≠ [] := by
  obtain ⟨i, hi, t, ht⟩ := substring_iff_drop.mp hsub
  have hdot : i ∈ ends fl s.data dotstar 0 := by
    refine mem_ends_dotstar fl s.data (Nat.zero_le i) hi ?_
    intro k _ hk
    have hklt : k < s.data.length := lt_of_lt_of_le hk hi
    have : s.data[k] ∈ s.data := List.getElem_mem hklt
    have hne := hnl _ this
    simp [anyOk, List.getElem?_eq_getElem hklt, hne]
  have hlit : (i + v.length) ∈ ends fl s.data (.lit v) i := by
    simp [ends, litMatch_of_drop fl s.data v.data i ⟨t, ht⟩]
  exact List.ne_nil_of_mem (mem_ends_cat.mpr ⟨i, hdot, hlit⟩)

theorem ends_cat_dotstar_lit_empty (s : String) (v : String)
    (hsub : ¬ substring v.data s.data) :
    ∀ i, ends {} s.data (.cat dotstar (.lit v)) i = [] := by
  intro i
  rw [List.eq_nil_iff_forall_not_mem]
  intro j hj
  obtain ⟨m, _, hjm⟩ := mem_ends_cat.mp hj
  simp only [ends] at hjm
  by_cases hlm : litMatch {} s.data v.data m = true
  · obtain ⟨t, ht⟩ := litMatch_default_drop s.data v.data m hlm
    rcases hv : v.data with _ | ⟨c, vrest⟩
    · exact hsub ⟨[], s.data, by simp [hv]⟩
    · rw [hv] at ht
      have hm : m ≤ s.data.length := by
        by_contra hgt
        have : s.data.drop m = [] := List.drop_eq_nil_of_le (by omega)
        rw [this] at ht
        exact List.cons_ne_nil c (vrest ++ t) ht.symm
      exact hsub (substring_iff_drop.mpr ⟨m, hm, t, by rw [hv]; exact ht⟩)
  · simp only [Bool.not_eq_true] at hlm
    rw [hlm] at hjm
    simp at hjm

/-- C4 counterexample: the claim quantifies over every candidate string;
for the AND-bucket conditions CONTAINS "a" and CONTAINS "b", the candidate
"a\nb" contains both texts, yet the matcher rejects it, because `.` in the
lookahead chain `(?=.*a)(?=.*b).*` does not cross a newline without DOTALL
and no single start position can see both fragments. -/
theorem c4_counterexample :
    (parseQuery "SELECT LINES FROM \"f\" WHERE CONTAINS \"a\" AND CONTAINS \"b\"").map
      Query.conditions = .ok [{ type := .CONTAINS, value := "a" },
        { type := .CONTAINS, value := "b" }] ∧
    substring "a".data "a\nb".data ∧ substring "b".data "a\nb".data ∧
    (parseQuery "SELECT LINES FROM \"f\" WHERE CONTAINS \"a\" AND CONTAINS \"b\"").map
      (fun q => runMatch q "a\nb") = .ok false := by
  refine ⟨by decide, ⟨[], ['\n', 'b'], by decide⟩, ⟨['a', '\n'], [], by decide⟩, by decide⟩

/-- C4 (amended): for every non-empty condition list of non-negated
AND-bucket CONTAINS conditions, compiled with default modifiers: a
candidate string containing no newline and containing every condition's
text (in any order) matches, and a candidate string from which at least one
condition's text is absent never matches.  (The newline restriction on the
positive direction is forced by the counterexample; the negative direction
is unrestricted.) -/
theorem c4_amended (cs : List Condition) (s : String)
    (hne : cs ≠ [])
    (hall : ∀ c ∈ cs, c.type = .CONTAINS ∧ c.negated = false ∧ c.logic = .AND) :
    ((∀ c ∈ cs, substring c.value.data s.data) → (∀ ch ∈ s.data, ch ≠ '\n') →
      runMatch { conditions := cs } s = true) ∧
    ((∃ c ∈ cs, ¬ substring c.value.data s.data) →
      runMatch { conditions := cs } s = false) := by
  obtain ⟨c0, cs', rfl⟩ := List.exists_cons_of_ne_nil hne
  have hbp : build_pattern { conditions := c0 :: cs' } =
      (and_chain ((c0 :: cs').map (fun c => Regex.lit c.value)), []) := by
    unfold build_pattern
    rw [partition_all_and _ _ hall]
    rfl
  have hfl : executeFlags ({ conditions := c0 :: cs' } : Query).modifiers = {} := rfl
  constructor
  · intro hsub hnl
    have hsearch : search {} (and_chain ((c0 :: cs').map (fun c => Regex.lit c.value))) s = true := by
      refine search_iff.mpr ⟨0, Nat.zero_le _, ?_⟩
      refine ends_and_chain_ne _ _ _ _ ?_
      intro p hp
      obtain ⟨c, hc, rfl⟩ := List.mem_map.mp hp
      exact ends_cat_dotstar_lit_of_substring _ s c.value hnl (hsub c hc)
    simp only [runMatch, hbp, hfl, matches_item, hsearch, Bool.not_true, Bool.false_eq_true,
      if_false]
    rfl
  · intro hex
    obtain ⟨c, hc, hnsub⟩ := hex
    have hmemmap : Regex.lit c.value ∈ (c0 :: cs').map (fun c => Regex.lit c.value) :=
      List.mem_map.mpr ⟨c, hc, rfl⟩
    have hempty := ends_and_chain_eq_nil {} s.data (.lit c.value)
      (ends_cat_dotstar_lit_empty s c.value hnsub)
      ((c0 :: cs').map (fun c => Regex.lit c.value)) hmemmap
    have hsearch : search {} (and_chain ((c0 :: cs').map (fun c => Regex.lit c.value))) s = false := by
      rw [Bool.eq_false_iff]
      intro h
      obtain ⟨i, _, hne2⟩ := search_iff.mp h
      exact hne2 (hempty i)
    simp only [runMatch, hbp, hfl, matches_item]
    rw [hsearch]
    simp

/-- C4 witness: the single condition CONTAINS "ab" accepts the newline-free
candidate "xaby" containing its text. -/
theorem c4_witness :
    runMatch { conditions := [{ type := .CONTAINS, value := "ab" }] } "xaby" = true :=
  (c4_amended [{ type := .CONTAINS, value := "ab" }] "xaby" (by decide) (by decide)).1
    (by
      intro c hcm
      rw [List.mem_singleton] at hcm
      subst hcm
      exact ⟨['x'], ['y'], rfl⟩)
    (by decide)

/-! ## Claim C7 -/

/-- The optional condition-kind keyword prefix of a condition. -/
inductive KindKw where
  | containsKw
  | startsWithKw
  | endsWithKw
  | matchesKw
deriving DecidableEq, Repr

/-- A keyword token (the position is irrelevant to condition parsing). -/
def kwTok (v : String) : Token := ⟨.KEYWORD, v, 0, 0⟩

/-- A number token. -/
def numToken (n : String) : Token := ⟨.NUMBER, n, 0, 0⟩

/-- Token spelling of each optional condition-kind prefix. -/
def kindToks : Option KindKw → List Token
  | none => []
  | some .containsKw => [kwTok "CONTAINS"]
  | some .startsWithKw => [kwTok "STARTS", kwTok "WITH"]
  | some .endsWithKw => [kwTok "ENDS", kwTok "WITH"]
  | some .matchesKw => [kwTok "MATCHES"]

/-- The four quantifier-prefix forms of the grammar, carrying the number
token texts. -/
inductive QuantForm where
  | atLeast (n : String)
  | atMost (n : String)
  | exactly (n : String)
  | between (a b : String)
deriving DecidableEq, Repr

/-- Token spelling of a quantifier prefix, with or without the optional
trailing TIMES keyword. -/
def quantToks : QuantForm → Bool → List Token
  | .atLeast n, t => [kwTok "AT", kwTok "LEAST", numToken n] ++ (if t then [kwTok "TIMES"] else [])
  | .atMost n, t => [kwTok "AT", kwTok "MOST", numToken n] ++ (if t then [kwTok "TIMES"] else [])
  | .exactly n, t => [kwTok "EXACTLY", numToken n] ++ (if t then [kwTok "TIMES"] else [])
  | .between a b, t =>
    [kwTok "BETWEEN", numToken a, kwTok "AND", numToken b] ++ (if t then [kwTok "TIMES"] else [])

/-- The quantifier string the parser builds for each prefix form. -/
def quantStr : QuantForm → String
  | .atLeast n => "\x7b" ++ n ++ ",\x7d"
  | .atMost n => "\x7b0," ++ n ++ "\x7d"
  | .exactly n => "\x7b" ++ n ++ "\x7d"
  | .between a b => "\x7b" ++ a ++ "," ++ b ++ "\x7d"

/-- C7: in condition parsing, a quantifier prefix (AT LEAST n / AT MOST n /
EXACTLY n / BETWEEN a AND b, with or without TIMES) forces the parsed
condition's kind to REPEAT, for every choice of preceding explicit
condition-kind keyword (none, CONTAINS, STARTS WITH, ENDS WITH, MATCHES):
the quantifier always wins, and the built condition carries the
corresponding quantifier string. -/
theorem c7_quantifier_wins (kp : Option KindKw) (qf : QuantForm) (wt : Bool)
    (v : String) (l c : Nat) (rest : List Token) :
    (parse_condition (kindToks kp ++ quantToks qf wt ++ ⟨.STRING, v, l, c⟩ :: rest)).map
      (fun r => r.1) =
    .ok { type := .REPEAT, value := v, quantifier := some (quantStr qf) } := by
  rcases kp with _ | k
  · cases qf <;> cases wt <;>
      simp [parse_condition, parse_kind, parseQuantPrefix, optionalTok, expectTok, currentToken,
        advanceTokens, kindToks, quantToks, quantStr, kwTok, numToken, Except.map,
        Bind.bind, Except.bind, pure, Except.pure]
  · cases k <;> cases qf <;> cases wt <;>
      simp [parse_condition, parse_kind, parseQuantPrefix, optionalTok, expectTok, currentToken,
        advanceTokens, kindToks, quantToks, quantStr, kwTok, numToken, Except.map,
        Bind.bind, Except.bind, pure, Except.pure]

/-! ## Claim C9 -/

theorem except_map_error {α β ε : Type} (f : α → β) {x : Except ε α} {e : ε}
    (h : Except.map f x = .error e) : x = .error e := by
  cases x with
  | error e0 => simpa [Except.map] using h
  | ok a => simp [Except.map] at h

theorem tokenize0_error_shape :
    ∀ (fuel : Nat) (cs : List Char) (line column : Nat) (e : QueryError),
      tokenize0 fuel cs line column = .error e → ∃ l c, e = .unterminatedString l c := by
  intro fuel
  induction fuel with
  | zero => intro cs line column e h; exact absurd h (by simp [tokenize0])
  | succ n ih =>
    intro cs line column e h
    match cs with
    | [] => exact absurd h (by simp [tokenize0])
    | c :: cs =>
      simp only [tokenize0] at h
      repeat' split at h
      all_goals
        first
        | exact ih _ _ _ _ h
        | exact ih _ _ _ _ (except_map_error _ h)
        | exact ⟨_, _, (Except.error.inj h).symm⟩
        | simp at h

/-- C9: tokenization never fails except on an unterminated quoted literal,
in which case the error carries line and column information; the tokenizer
runs in `Parser.__init__`, so its error is the result of the whole front
end, before any parsing; on the spec's example query the unterminated quote
is reported at line 1, column 43. -/
theorem c9_lex_errors (text : String) (e : QueryError) :
    (tokenize text = .error e → ∃ l c, e = .unterminatedString l c) ∧
    (tokenize text = .error e → parseQuery text = .error e) ∧
    parseQuery "SELECT LINES FROM \"f.txt WHERE CONTAINS \"x\"" =
      .error (.unterminatedString 1 43) := by
  refine ⟨fun h => tokenize0_error_shape _ _ _ _ _ h, fun h => ?_, by decide⟩
  simp [parseQuery, Bind.bind, Except.bind, h]

/-- C9 witness: the one-character text consisting of a double quote fails
tokenization with the unterminated-string error at line 1, column 1, and
the front end returns exactly that error. -/
theorem c9_witness :
    (∃ l c, (QueryError.unterminatedString 1 1) = QueryError.unterminatedString l c) ∧
    parseQuery "\"" = .error (.unterminatedString 1 1) :=
  ⟨(c9_lex_errors "\"" (.unterminatedString 1 1)).1 (by decide),
   (c9_lex_errors "\"" (.unterminatedString 1 1)).2.1 (by decide)⟩

/-! ## Parser-state bookkeeping shared by the parser invariants -/

/-- Membership inclusion of token states: every token of the later state
occurs in the earlier one.  All parser steps only ever advance through the
token list, so their output states are included in their inputs. -/
def SubOf (ts' ts : List Token) : Prop := ∀ t ∈ ts', t ∈ ts

theorem SubOf.refl (ts : List Token) : SubOf ts ts := fun _ h => h

theorem SubOf.trans {a b c : List Token} (h1 : SubOf a b) (h2 : SubOf b c) : SubOf a c :=
  fun t ht => h2 t (h1 t ht)

theorem advance_subOf (ts : List Token) : SubOf (advanceTokens ts) ts := by
  intro t ht
  match ts, ht with
  | [t0], ht => exact ht
  | t0 :: t1 :: rest, ht => exact List.mem_cons_of_mem t0 ht

theorem optionalTok_subOf (tt : TokenType) (v : Option String) (ts : List Token) :
    SubOf (optionalTok tt v ts).2 ts := by
  unfold optionalTok
  split
  · exact advance_subOf ts
  · exact SubOf.refl ts

theorem expectTok_ok {tt : TokenType} {v : Option String} {ts : List Token} {tok : Token}
    {ts' : List Token} (h : expectTok tt v ts = .ok (tok, ts')) :
    tok = currentToken ts ∧ tok.type = tt ∧ ts' = advanceTokens ts := by
  unfold expectTok at h
  split at h
  · exact absurd h (by simp)
  · rename_i hty
    rw [not_not] at hty
    split at h
    · split at h
      · exact absurd h (by simp)
      · simp only [Except.ok.injEq, Prod.mk.injEq] at h
        exact ⟨h.1.symm, by rw [← h.1]; exact hty, h.2.symm⟩
    · simp only [Except.ok.injEq, Prod.mk.injEq] at h
      exact ⟨h.1.symm, by rw [← h.1]; exact hty, h.2.symm⟩

theorem optionalTok_eq_some {tt : TokenType} {v : Option String} {ts : List Token}
    {tok : Token} {ts' : List Token} (h : optionalTok tt v ts = (some tok, ts')) :
    ts' = advanceTokens ts ∧ tok = currentToken ts := by
  unfold optionalTok at h
  split at h
  · simp only [Prod.mk.injEq, Option.some.injEq] at h
    exact ⟨h.2.symm, h.1.symm⟩
  · simp at h

theorem optionalTok_eq_none {tt : TokenType} {v : Option String} {ts ts' : List Token}
    (h : optionalTok tt v ts = (none, ts')) : ts' = ts := by
  unfold optionalTok at h
  split at h
  · simp at h
  · simp only [Prod.mk.injEq] at h
    exact h.2.symm

/-! ## Claim C10 -/

theorem parse_condition_defaults {ts : List Token} {c : Condition} {ts' : List Token}
    (h : parse_condition ts = .ok (c, ts')) : c.negated = false ∧ c.logic = .AND := by
  simp only [parse_condition, Bind.bind, Except.bind, pure, Except.pure] at h
  repeat' split at h
  all_goals
    first
    | (simp only [Except.ok.injEq, Prod.mk.injEq] at h
       exact ⟨congrArg Condition.negated h.1.symm, congrArg Condition.logic h.1.symm⟩)
    | simp at h

theorem parse_conditions_loop_acc :
    ∀ (fuel : Nat) (acc : List Condition) (ts : List Token) (cs : List Condition)
      (ts' : List Token), parse_conditions_loop fuel acc ts = .ok (cs, ts') →
      ∃ tail, cs = acc ++ tail := by
  intro fuel
  induction fuel with
  | zero =>
    intro acc ts cs ts' h
    simp only [parse_conditions_loop, Except.ok.injEq, Prod.mk.injEq] at h
    exact ⟨[], by rw [← h.1]; simp⟩
  | succ n ih =>
    intro acc ts cs ts' h
    simp only [parse_conditions_loop] at h
    split at h
    · split at h
      · simp at h
      · obtain ⟨tail, htail⟩ := ih _ _ _ _ h
        rename_i next_condition ts2 _
        exact ⟨{ next_condition with
            logic := if (currentToken ts).value = "AND" then LogicType.AND else LogicType.OR,
            negated := (optionalTok .KEYWORD (some "NOT") (advanceTokens ts)).1.isSome } :: tail,
          by rw [htail]; simp⟩
    · simp only [Except.ok.injEq, Prod.mk.injEq] at h
      exact ⟨[], by rw [← h.1]; simp⟩

theorem parse_conditions_head {ts : List Token} {cs : List Condition} {ts' : List Token}
    (h : parse_conditions ts = .ok (cs, ts')) :
    ∃ c0 tail, cs = c0 :: tail ∧ c0.negated = false ∧ c0.logic = .AND := by
  simp only [parse_conditions, Bind.bind, Except.bind] at h
  split at h
  · simp at h
  · rename_i val heq
    obtain ⟨c, ts1⟩ := val
    obtain ⟨hneg, hlog⟩ := parse_condition_defaults heq
    obtain ⟨tail, htail⟩ := parse_conditions_loop_acc _ _ _ _ _ h
    exact ⟨c, tail, by rw [htail]; rfl, hneg, hlog⟩

theorem parse_modifiers_loop_conditions :
    ∀ (fuel : Nat) (q : Query) (ts : List Token) (q' : Query) (ts' : List Token),
      parse_modifiers_loop fuel q ts = .ok (q', ts') → q'.conditions = q.conditions := by
  intro fuel
  induction fuel with
  | zero =>
    intro q ts q' ts' h
    simp only [parse_modifiers_loop, Except.ok.injEq, Prod.mk.injEq] at h
    rw [← h.1]
  | succ n ih =>
    intro q ts q' ts' h
    simp only [parse_modifiers_loop] at h
    repeat' split at h
    all_goals
      first
      | simpa using ih _ _ _ _ h
      | (simp only [Except.ok.injEq, Prod.mk.injEq] at h
         exact congrArg Query.conditions h.1.symm)
      | simp at h

theorem parse_command_inv {q : Query} {ts : List Token} {out : Query × List Token}
    (h : parse_command q ts = .ok out) :
    out.1.conditions = q.conditions ∧ SubOf out.2 ts := by
  unfold parse_command at h
  split at h
  · rename_i tok ts1 heq
    simp only [Except.ok.injEq] at h
    subst h
    exact ⟨rfl, (optionalTok_eq_some heq).1 ▸ advance_subOf ts⟩
  · split at h
    · rename_i tok ts1 heq
      split at h
      · simp at h
      · rename_i pt ts2 heq2
        simp only [Except.ok.injEq] at h
        subst h
        obtain ⟨h1, _, h2⟩ := expectTok_ok heq2
        refine ⟨rfl, SubOf.trans ?_ ((optionalTok_eq_some heq).1 ▸ advance_subOf ts)⟩
        rw [h2]
        exact advance_subOf ts1
    · rename_i heq
      simp only [Except.ok.injEq] at h
      subst h
      exact ⟨rfl, (optionalTok_eq_none heq) ▸ SubOf.refl ts⟩

theorem parse_target_inv (q : Query) (ts : List Token) :
    (parse_target q ts).1.conditions = q.conditions ∧ SubOf (parse_target q ts).2 ts := by
  unfold parse_target
  repeat' split
  all_goals
    rename_i heq
    first
    | exact ⟨rfl, (optionalTok_eq_some heq).1 ▸ advance_subOf ts⟩
    | exact ⟨rfl, (optionalTok_eq_none heq) ▸ SubOf.refl ts⟩

theorem parse_from_inv {q : Query} {ts : List Token} {out : Query × List Token}
    (h : parse_from q ts = .ok out) :
    out.1.conditions = q.conditions ∧ SubOf out.2 ts := by
  unfold parse_from at h
  rcases heq : expectTok .KEYWORD (some "FROM") ts with e | ⟨tok1, ts1⟩
  · rw [heq] at h
    simp at h
  · rw [heq] at h
    dsimp only at h
    obtain ⟨_, _, hadv⟩ := expectTok_ok heq
    have hsub1 : SubOf ts1 ts := hadv ▸ advance_subOf ts
    by_cases hstr : (currentToken ts1).type = TokenType.STRING
    · rw [if_pos hstr] at h
      rcases heq2 : expectTok .STRING none ts1 with e | ⟨tok2, ts2⟩
      · rw [heq2] at h
        simp at h
      · rw [heq2] at h
        dsimp only at h
        obtain ⟨_, _, hadv2⟩ := expectTok_ok heq2
        simp only [Except.ok.injEq] at h
        subst h
        exact ⟨rfl, SubOf.trans (hadv2 ▸ advance_subOf ts1) hsub1⟩
    · rw [if_neg hstr] at h
      simp only [Except.ok.injEq] at h
      subst h
      exact ⟨rfl, hsub1⟩

theorem parse_as_conditions (q : Query) (ts : List Token) :
    (parse_as q ts).1.conditions = q.conditions := by
  unfold parse_as
  repeat' split
  all_goals rfl

theorem parse_where_inv {q : Query} {ts : List Token} {out : Query × List Token}
    (h : parse_where q ts = .ok out) :
    (out.1.conditions = q.conditions ∧ SubOf out.2 ts) ∨
    ∃ cs ts2, parse_conditions (advanceTokens ts) = .ok (cs, ts2) ∧ out.1.conditions = cs := by
  unfold parse_where at h
  split at h
  · rename_i tok ts1 heq
    obtain ⟨hadv, _⟩ := optionalTok_eq_some heq
    subst hadv
    split at h
    · simp at h
    · rename_i cs2 ts2 heq2
      simp only [Except.ok.injEq] at h
      subst h
      exact Or.inr ⟨cs2, ts2, heq2, rfl⟩
  · rename_i heq
    simp only [Except.ok.injEq] at h
    subst h
    exact Or.inl ⟨rfl, (optionalTok_eq_none heq) ▸ SubOf.refl ts⟩

theorem parseTokens_conditions_source {ts : List Token} {q : Query}
    (h : parseTokens ts = .ok q) :
    q.conditions = [] ∨
    ∃ ts1 cs ts2, SubOf ts1 ts ∧ parse_conditions ts1 = .ok (cs, ts2) ∧ q.conditions = cs := by
  simp only [parseTokens, Bind.bind, Except.bind, pure, Except.pure] at h
  split at h
  · simp at h
  · rename_i v1 heq1
    obtain ⟨tok1, tsa⟩ := v1
    obtain ⟨_, _, hadva⟩ := expectTok_ok heq1
    have hsuba : SubOf tsa ts := hadva ▸ advance_subOf ts
    split at h
    · simp at h
    · rename_i v2 heq2
      obtain ⟨q2, tsb⟩ := v2
      obtain ⟨hc2, hsub2⟩ := parse_command_inv heq2
      rcases hT : parse_target q2 tsb with ⟨q3, tsc⟩
      rw [hT] at h
      have hc3 : q3.conditions = q2.conditions := by
        have := (parse_target_inv q2 tsb).1
        rw [hT] at this
        exact this
      have hsub3 : SubOf tsc tsb := by
        have := (parse_target_inv q2 tsb).2
        rw [hT] at this
        exact this
      split at h
      · simp at h
      · rename_i v4 heq4
        obtain ⟨q4, tsd⟩ := v4
        obtain ⟨hc4, hsub4⟩ := parse_from_inv heq4
        split at h
        · simp at h
        · rename_i v5 heq5
          obtain ⟨q5, tse⟩ := v5
          have hwhere := parse_where_inv heq5
          split at h
          · simp at h
          · rename_i v6 heq6
            obtain ⟨q6, tsf⟩ := v6
            have hc6 : q6.conditions = q5.conditions :=
              parse_modifiers_loop_conditions _ _ _ _ _ heq6
            rcases hA : parse_as q6 tsf with ⟨q7, tsg⟩
            rw [hA] at h
            have hc7 : q7.conditions = q6.conditions := by
              have := parse_as_conditions q6 tsf
              rw [hA] at this
              exact this
            simp only [Except.ok.injEq] at h
            subst h
            rcases hwhere with ⟨hc5, _⟩ | ⟨cs, ts2, hpc, hc5⟩
            · left
              rw [hc7, hc6, hc5, hc4, hc3, hc2]
            · right
              refine ⟨advanceTokens tsd, cs, ts2, ?_, hpc, by rw [hc7, hc6, hc5]⟩
              exact SubOf.trans (advance_subOf tsd)
                (SubOf.trans hsub4 (SubOf.trans hsub3 (SubOf.trans hsub2 hsuba)))

/-- C10: for every query text the parser accepts, the first condition of a
non-empty WHERE clause carries `logic = AND` and `negated = false`; OR
logic and negation can only be attached to a condition introduced by an
AND/OR connector. -/
theorem c10_first_condition (text : String) (q : Query) (c0 : Condition)
    (hq : parseQuery text = .ok q) (hc : q.conditions.head? = some c0) :
    c0.logic = .AND ∧ c0.negated = false := by
  have hpt : ∃ ts, tokenize text = .ok ts ∧ parseTokens ts = .ok q := by
    simp only [parseQuery, Bind.bind, Except.bind] at hq
    split at hq
    · simp at hq
    · rename_i ts hts
      exact ⟨ts, hts, hq⟩
  obtain ⟨ts, _, hptok⟩ := hpt
  rcases parseTokens_conditions_source hptok with hnil | ⟨ts1, cs, ts2, _, hpc, hcs⟩
  · rw [hnil] at hc
    simp at hc
  · obtain ⟨ch, tail, hcons, hneg, hlog⟩ := parse_conditions_head hpc
    rw [hcs, hcons] at hc
    simp only [List.head?_cons, Option.some.injEq] at hc
    subst hc
    exact ⟨hlog, hneg⟩

/-- C10 witness: on a two-condition query whose second condition is OR NOT,
the first parsed condition still has AND logic and no negation. -/
theorem c10_witness :
    (LogicType.AND = LogicType.AND ∧ false = false) :=
  c10_first_condition "SELECT LINES FROM \"f\" WHERE CONTAINS \"a\" OR NOT CONTAINS \"b\""
    { conditions := [{ type := .CONTAINS, value := "a" },
        { type := .CONTAINS, value := "b", negated := true, logic := .OR }],
      file_pattern := some "f" }
    { type := .CONTAINS, value := "a" } (by decide) (by decide)

/-! ## Claim C6 -/

/-- A non-empty run of decimal digits in the tokenizer's Unicode-aware
sense, the shape of every NUMBER token the tokenizer produces. -/
def digitRun (v : String) : Prop := v.data ≠ [] ∧ v.data.all pyIsDigit = true

/-- Every NUMBER token in the list is a non-empty digit run. -/
def NumOk (ts : List Token) : Prop := ∀ t ∈ ts, t.type = .NUMBER → digitRun t.value

theorem NumOk.sub {ts' ts : List Token} (hsub : SubOf ts' ts) (h : NumOk ts) : NumOk ts' :=
  fun t ht => h t (hsub t ht)

theorem currentToken_numOk {ts : List Token} (h : NumOk ts)
    (hty : (currentToken ts).type = .NUMBER) : digitRun (currentToken ts).value := by
  cases ts with
  | nil => simp [currentToken] at hty
  | cons t rest => exact h t (List.mem_cons_self t rest) hty

theorem optionalTok_any_subOf {tt : TokenType} {v : Option String} {ts : List Token}
    {o : Option Token} {ts' : List Token} (h : optionalTok tt v ts = (o, ts')) :
    SubOf ts' ts := by
  cases o with
  | some tok => exact (optionalTok_eq_some h).1 ▸ advance_subOf ts
  | none => exact (optionalTok_eq_none h) ▸ SubOf.refl ts

theorem takeWhile_digits_append (rest : List Char)
    (hrest : ∀ c, rest.head? = some c → c.isDigit = false) :
    ∀ a : List Char, a.all Char.isDigit = true →
      (a ++ rest).takeWhile Char.isDigit = a ∧ (a ++ rest).dropWhile Char.isDigit = rest := by
  intro a
  induction a with
  | nil =>
    intro _
    simp only [List.nil_append]
    cases rest with
    | nil => exact ⟨rfl, rfl⟩
    | cons c cs =>
      have hc : c.isDigit = false := hrest c rfl
      exact ⟨by simp [List.takeWhile_cons, hc], by simp [List.dropWhile_cons, hc]⟩
  | cons x a ih =>
    intro hall
    simp only [List.all_cons, Bool.and_eq_true] at hall
    have h1 := ih hall.2
    exact ⟨by simp [List.takeWhile_cons, hall.1, h1.1],
      by simp [List.dropWhile_cons, hall.1, h1.2]⟩

theorem parseQuant_atLeast (v : String) (h1 : v.data ≠ []) (h2 : v.data.all Char.isDigit = true) :
    parseQuant ("\x7b" ++ v ++ ",\x7d") = some (digitsToNat v.data, none) := by
  have hx : ("\x7b" : String).data = [lbrace] := by decide
  have hy : ((",\x7d" : String)).data = [',', rbrace] := by decide
  have hdata : ("\x7b" ++ v ++ ",\x7d").data = lbrace :: (v.data ++ [',', rbrace]) := by
    rw [String.data_append, String.data_append, hx, hy]
    simp
  have htw := takeWhile_digits_append [',', rbrace]
    (fun c hc => by
      simp only [List.head?_cons, Option.some.injEq] at hc
      rw [← hc]
      decide) v.data h2
  simp only [parseQuant, hdata, htw.1, htw.2]
  simp [h1]

theorem parseQuant_exactly (v : String) (h1 : v.data ≠ []) (h2 : v.data.all Char.isDigit = true) :
    parseQuant ("\x7b" ++ v ++ "\x7d") = some (digitsToNat v.data, some (digitsToNat v.data)) := by
  have hx : ("\x7b" : String).data = [lbrace] := by decide
  have hy : (("\x7d" : String)).data = [rbrace] := by decide
  have hdata : ("\x7b" ++ v ++ "\x7d").data = lbrace :: (v.data ++ [rbrace]) := by
    rw [String.data_append, String.data_append, hx, hy]
    simp
  have htw := takeWhile_digits_append [rbrace]
    (fun c hc => by
      simp only [List.head?_cons, Option.some.injEq] at hc
      rw [← hc]
      decide) v.data h2
  simp only [parseQuant, hdata, htw.1, htw.2]
  simp [h1]

theorem parseQuant_atMost (v : String) (h1 : v.data ≠ []) (h2 : v.data.all Char.isDigit = true) :
    parseQuant ("\x7b0," ++ v ++ "\x7d") = some (0, some (digitsToNat v.data)) := by
  have hx : ("\x7b0," : String).data = [lbrace, '0', ','] := by decide
  have hy : (("\x7d" : String)).data = [rbrace] := by decide
  have hdata : ("\x7b0," ++ v ++ "\x7d").data = lbrace :: ('0' :: (',' :: (v.data ++ [rbrace]))) := by
    rw [String.data_append, String.data_append, hx, hy]
    simp
  have htw0 := takeWhile_digits_append (',' :: (v.data ++ [rbrace]))
    (fun c hc => by
      simp only [List.head?_cons, Option.some.injEq] at hc
      rw [← hc]
      decide) ['0'] (by decide)
  have htwv := takeWhile_digits_append [rbrace]
    (fun c hc => by
      simp only [List.head?_cons, Option.some.injEq] at hc
      rw [← hc]
      decide) v.data h2
  have ha : ('0' :: (',' :: (v.data ++ [rbrace]))).takeWhile Char.isDigit = ['0'] := by
    have := htw0.1
    simpa using this
  have hr : ('0' :: (',' :: (v.data ++ [rbrace]))).dropWhile Char.isDigit =
      ',' :: (v.data ++ [rbrace]) := by
    have := htw0.2
    simpa using this
  simp only [parseQuant, hdata, ha, hr, htwv.1, htwv.2]
  simp [h1, List.append_left_eq_self]
  decide

theorem parseQuant_between (a b : String) (ha1 : a.data ≠ []) (ha2 : a.data.all Char.isDigit = true)
    (hb1 : b.data ≠ []) (hb2 : b.data.all Char.isDigit = true) :
    parseQuant ("\x7b" ++ a ++ "," ++ b ++ "\x7d") =
      some (digitsToNat a.data, some (digitsToNat b.data)) := by
  have hx : ("\x7b" : String).data = [lbrace] := by decide
  have hy : (("," : String)).data = [','] := by decide
  have hz : (("\x7d" : String)).data = [rbrace] := by decide
  have hdata : ("\x7b" ++ a ++ "," ++ b ++ "\x7d").data =
      lbrace :: (a.data ++ (',' :: (b.data ++ [rbrace]))) := by
    rw [String.data_append, String.data_append, String.data_append, String.data_append,
      hx, hy, hz]
    simp
  have htwa := takeWhile_digits_append (',' :: (b.data ++ [rbrace]))
    (fun c hc => by
      simp only [List.head?_cons, Option.some.injEq] at hc
      rw [← hc]
      decide) a.data ha2
  have htwb := takeWhile_digits_append [rbrace]
    (fun c hc => by
      simp only [List.head?_cons, Option.some.injEq] at hc
      rw [← hc]
      decide) b.data hb2
  simp only [parseQuant, hdata, htwa.1, htwa.2, htwb.1, htwb.2]
  simp [ha1, hb1, List.append_left_eq_self]

/-- The four quantifier-string shapes the parser interpolates, each from
non-empty runs of (Unicode-aware) decimal digits: `{n,}`, `{n}`, `{0,n}`
and `{n,m}`. -/
def QuantShape (qs : String) : Prop :=
  (∃ n, digitRun n ∧ (qs = "\x7b" ++ n ++ ",\x7d" ∨ qs = "\x7b" ++ n ++ "\x7d" ∨
    qs = "\x7b0," ++ n ++ "\x7d")) ∨
  (∃ n m, digitRun n ∧ digitRun m ∧ qs = "\x7b" ++ n ++ "," ++ m ++ "\x7d")

theorem digitRun_ascii {n : String} (hn : digitRun n)
    (h : ∀ ch ∈ n.data, ch.isDigit = true ∨ ch = lbrace ∨ ch = rbrace ∨ ch = ',') :
    n.data.all Char.isDigit = true := by
  rw [List.all_eq_true]
  intro ch hch
  have hpy : pyIsDigit ch = true := List.all_eq_true.mp hn.2 ch hch
  rcases h ch hch with hd | rfl | rfl | rfl
  · exact hd
  · exact absurd hpy (by decide)
  · exact absurd hpy (by decide)
  · exact absurd hpy (by decide)

theorem quantShape_ascii {qs : String} (hs : QuantShape qs)
    (hascii : ∀ ch ∈ qs.data, ch.isDigit = true ∨ ch = lbrace ∨ ch = rbrace ∨ ch = ',') :
    ∃ lo hi, parseQuant qs = some (lo, hi) := by
  rcases hs with ⟨n, hn, hshape⟩ | ⟨n, m, hn, hm, hshape⟩
  · rcases hshape with rfl | rfl | rfl
    · refine ⟨_, _, parseQuant_atLeast n hn.1 (digitRun_ascii hn ?_)⟩
      intro ch hch
      refine hascii ch ?_
      simp [String.data_append, hch]
    · refine ⟨_, _, parseQuant_exactly n hn.1 (digitRun_ascii hn ?_)⟩
      intro ch hch
      refine hascii ch ?_
      simp [String.data_append, hch]
    · refine ⟨_, _, parseQuant_atMost n hn.1 (digitRun_ascii hn ?_)⟩
      intro ch hch
      refine hascii ch ?_
      simp [String.data_append, hch]
  · rcases hshape with rfl
    refine ⟨_, _, parseQuant_between n m hn.1 (digitRun_ascii hn ?_) hm.1
      (digitRun_ascii hm ?_)⟩
    · intro ch hch
      refine hascii ch ?_
      simp [String.data_append, hch]
    · intro ch hch
      refine hascii ch ?_
      simp [String.data_append, hch]

theorem except_map_ok {α β ε : Type} (f : α → β) {x : Except ε α} {b : β}
    (h : Except.map f x = .ok b) : ∃ a, x = .ok a ∧ b = f a := by
  cases x with
  | error e => simp [Except.map] at h
  | ok a => exact ⟨a, rfl, (Except.ok.inj h).symm⟩

theorem tokenize0_numOk :
    ∀ (fuel : Nat) (cs : List Char) (line column : Nat) (ts : List Token),
      tokenize0 fuel cs line column = .ok ts → NumOk ts := by
  intro fuel
  induction fuel with
  | zero =>
    intro cs line column ts h
    simp only [tokenize0, Except.ok.injEq] at h
    intro t ht
    rw [← h] at ht
    cases ht
  | succ n ih =>
    intro cs line column ts h
    match cs with
    | [] =>
      simp only [tokenize0, Except.ok.injEq] at h
      intro t ht htt
      rw [← h] at ht
      rw [List.mem_singleton] at ht
      rw [ht] at htt
      simp at htt
    | c :: cs =>
      simp only [tokenize0] at h
      split at h
      · exact ih _ _ _ _ h
      · split at h
        · exact ih _ _ _ _ h
        · split at h
          · -- quoted string
            split at h
            · obtain ⟨ts0, hts0, rfl⟩ := except_map_ok _ h
              intro t ht htt
              rcases List.mem_cons.mp ht with rfl | hmem
              · simp at htt
              · exact ih _ _ _ _ hts0 t hmem htt
            · simp at h
          · split at h
            · -- digit run
              rename_i hdig
              obtain ⟨ts0, hts0, rfl⟩ := except_map_ok _ h
              intro t ht htt
              rcases List.mem_cons.mp ht with rfl | hmem
              · refine ⟨by simp, ?_⟩
                simp only [List.all_eq_true]
                intro x hx
                rcases List.mem_cons.mp (by simpa using hx) with rfl | hx2
                · exact hdig
                · exact List.mem_takeWhile_imp hx2
              · exact ih _ _ _ _ hts0 t hmem htt
            · split at h
              · -- keyword or identifier run
                obtain ⟨ts0, hts0, rfl⟩ := except_map_ok _ h
                intro t ht htt
                by_cases hkw : KEYWORDS.contains
                    (String.mk ((c :: cs.takeWhile isWordCont).map Char.toUpper)) = true
                · rw [if_pos hkw] at ht
                  rcases List.mem_cons.mp ht with rfl | hmem
                  · simp at htt
                  · exact ih _ _ _ _ hts0 t hmem htt
                · rw [if_neg (by simpa using hkw)] at ht
                  rcases List.mem_cons.mp ht with rfl | hmem
                  · simp at htt
                  · exact ih _ _ _ _ hts0 t hmem htt
              · split at h
                · -- operator run
                  obtain ⟨ts0, hts0, rfl⟩ := except_map_ok _ h
                  intro t ht htt
                  rcases List.mem_cons.mp ht with rfl | hmem
                  · simp at htt
                  · exact ih _ _ _ _ hts0 t hmem htt
                · exact ih _ _ _ _ h

theorem parse_kind_inv {ts : List Token} {out : ConditionType × List Token}
    (h : parse_kind ts = .ok out) : out.1 ≠ .REPEAT ∧ SubOf out.2 ts := by
  unfold parse_kind at h
  split at h
  · rename_i tok ts1 heq
    simp only [Except.ok.injEq] at h
    subst h
    exact ⟨by simp, optionalTok_any_subOf heq⟩
  · rename_i heq0
    split at h
    · rename_i tok ts1 heq
      rcases heq2 : expectTok .KEYWORD (some "WITH") ts1 with e | ⟨tok2, ts2⟩
      · rw [heq2] at h
        simp at h
      · rw [heq2] at h
        dsimp only at h
        simp only [Except.ok.injEq] at h
        subst h
        obtain ⟨_, _, hadv2⟩ := expectTok_ok heq2
        exact ⟨by simp, SubOf.trans (hadv2 ▸ advance_subOf ts1) (optionalTok_any_subOf heq)⟩
    · split at h
      · rename_i tok ts1 heq
        rcases heq2 : expectTok .KEYWORD (some "WITH") ts1 with e | ⟨tok2, ts2⟩
        · rw [heq2] at h
          simp at h
        · rw [heq2] at h
          dsimp only at h
          simp only [Except.ok.injEq] at h
          subst h
          obtain ⟨_, _, hadv2⟩ := expectTok_ok heq2
          exact ⟨by simp, SubOf.trans (hadv2 ▸ advance_subOf ts1) (optionalTok_any_subOf heq)⟩
      · split at h
        · rename_i tok ts1 heq
          simp only [Except.ok.injEq] at h
          subst h
          exact ⟨by simp, optionalTok_any_subOf heq⟩
        · rename_i heq
          simp only [Except.ok.injEq] at h
          subst h
          exact ⟨by simp, optionalTok_any_subOf heq⟩

theorem parseQuantPrefix_inv {ct : ConditionType} {ts : List Token}
    {out : ConditionType × Option String × List Token}
    (hts : NumOk ts) (h : parseQuantPrefix ct ts = .ok out) :
    ((out.1 = ct ∧ out.2.1 = none) ∨
      (out.1 = .REPEAT ∧ ∃ qs, out.2.1 = some qs ∧ QuantShape qs)) ∧
    SubOf out.2.2 ts := by
  simp only [parseQuantPrefix, Bind.bind, Except.bind, pure, Except.pure] at h
  split at h
  · -- AT consumed
    rename_i tokA tsa heqA
    have hsubA : SubOf tsa ts := optionalTok_any_subOf heqA
    split at h
    · -- AT LEAST n [TIMES]
      rename_i tokL tsb heqL
      have hsubB : SubOf tsb ts := SubOf.trans (optionalTok_any_subOf heqL) hsubA
      split at h
      · simp at h
      · rename_i vN heqN
        obtain ⟨numTok, tsc⟩ := vN
        obtain ⟨hcur, htyN, hadvN⟩ := expectTok_ok heqN
        rcases heqT : optionalTok .KEYWORD (some "TIMES") tsc with ⟨oT, tsd⟩
        rw [heqT] at h
        dsimp only at h
        simp only [Except.ok.injEq] at h
        subst h
        have hdr : digitRun numTok.value := by
          rw [hcur]
          exact currentToken_numOk (NumOk.sub hsubB hts) (hcur ▸ htyN)
        refine ⟨Or.inr ⟨rfl, "\x7b" ++ numTok.value ++ ",\x7d", rfl,
          Or.inl ⟨numTok.value, hdr, Or.inl rfl⟩⟩, ?_⟩
        exact SubOf.trans (optionalTok_any_subOf heqT)
          (SubOf.trans (hadvN ▸ advance_subOf tsb) hsubB)
    · split at h
      · -- AT MOST n [TIMES]
        rename_i tokM tsb heqM
        have hsubB : SubOf tsb ts := SubOf.trans (optionalTok_any_subOf heqM) hsubA
        split at h
        · simp at h
        · rename_i vN heqN
          obtain ⟨numTok, tsc⟩ := vN
          obtain ⟨hcur, htyN, hadvN⟩ := expectTok_ok heqN
          rcases heqT : optionalTok .KEYWORD (some "TIMES") tsc with ⟨oT, tsd⟩
          rw [heqT] at h
          dsimp only at h
          simp only [Except.ok.injEq] at h
          subst h
          have hdr : digitRun numTok.value := by
            rw [hcur]
            exact currentToken_numOk (NumOk.sub hsubB hts) (hcur ▸ htyN)
          refine ⟨Or.inr ⟨rfl, "\x7b0," ++ numTok.value ++ "\x7d", rfl,
            Or.inl ⟨numTok.value, hdr, Or.inr (Or.inr rfl)⟩⟩, ?_⟩
          exact SubOf.trans (optionalTok_any_subOf heqT)
            (SubOf.trans (hadvN ▸ advance_subOf tsb) hsubB)
      · -- AT with neither LEAST nor MOST
        rename_i heqM
        simp only [Except.ok.injEq] at h
        subst h
        exact ⟨Or.inl ⟨rfl, rfl⟩, SubOf.trans (optionalTok_any_subOf heqM) hsubA⟩
  · split at h
    · -- EXACTLY n [TIMES]
      rename_i tokE tsa heqE
      have hsubA : SubOf tsa ts := optionalTok_any_subOf heqE
      split at h
      · simp at h
      · rename_i vN heqN
        obtain ⟨numTok, tsb⟩ := vN
        obtain ⟨hcur, htyN, hadvN⟩ := expectTok_ok heqN
        rcases heqT : optionalTok .KEYWORD (some "TIMES") tsb with ⟨oT, tsc⟩
        rw [heqT] at h
        dsimp only at h
        simp only [Except.ok.injEq] at h
        subst h
        have hdr : digitRun numTok.value := by
          rw [hcur]
          exact currentToken_numOk (NumOk.sub hsubA hts) (hcur ▸ htyN)
        refine ⟨Or.inr ⟨rfl, "\x7b" ++ numTok.value ++ "\x7d", rfl,
          Or.inl ⟨numTok.value, hdr, Or.inr (Or.inl rfl)⟩⟩, ?_⟩
        exact SubOf.trans (optionalTok_any_subOf heqT)
          (SubOf.trans (hadvN ▸ advance_subOf tsa) hsubA)
    · split at h
      · -- BETWEEN a AND b [TIMES]
        rename_i tokB tsa heqB
        have hsubA : SubOf tsa ts := optionalTok_any_subOf heqB
        split at h
        · simp at h
        · rename_i vL heqL
          obtain ⟨lowTok, tsb⟩ := vL
          obtain ⟨hcurL, htyL, hadvL⟩ := expectTok_ok heqL
          have hsubB : SubOf tsb ts := SubOf.trans (hadvL ▸ advance_subOf tsa) hsubA
          split at h
          · simp at h
          · rename_i vA heqA2
            obtain ⟨andTok, tsc⟩ := vA
            obtain ⟨_, _, hadvA⟩ := expectTok_ok heqA2
            have hsubC : SubOf tsc ts := SubOf.trans (hadvA ▸ advance_subOf tsb) hsubB
            split at h
            · simp at h
            · rename_i vH heqH
              obtain ⟨highTok, tsd⟩ := vH
              obtain ⟨hcurH, htyH, hadvH⟩ := expectTok_ok heqH
              have hsubD : SubOf tsd ts := SubOf.trans (hadvH ▸ advance_subOf tsc) hsubC
              rcases heqT : optionalTok .KEYWORD (some "TIMES") tsd with ⟨oT, tse⟩
              rw [heqT] at h
              dsimp only at h
              simp only [Except.ok.injEq] at h
              subst h
              have hdrL : digitRun lowTok.value := by
                rw [hcurL]
                exact currentToken_numOk (NumOk.sub hsubA hts) (hcurL ▸ htyL)
              have hdrH : digitRun highTok.value := by
                rw [hcurH]
                exact currentToken_numOk (NumOk.sub hsubC hts) (hcurH ▸ htyH)
              refine ⟨Or.inr ⟨rfl, "\x7b" ++ lowTok.value ++ "," ++ highTok.value ++ "\x7d",
                rfl, Or.inr ⟨lowTok.value, highTok.value, hdrL, hdrH, rfl⟩⟩, ?_⟩
              exact SubOf.trans (optionalTok_any_subOf heqT) hsubD
      · -- no quantifier prefix at all
        rename_i heqB
        simp only [Except.ok.injEq] at h
        subst h
        exact ⟨Or.inl ⟨rfl, rfl⟩, optionalTok_any_subOf heqB⟩

/-- The quantifier discipline of one parsed condition: absent for every
non-REPEAT kind, present and of one of the four interpolated brace shapes
for REPEAT. -/
def CondInv (c : Condition) : Prop :=
  (c.type ≠ .REPEAT → c.quantifier = none) ∧
  (c.type = .REPEAT → ∃ qs, c.quantifier = some qs ∧ QuantShape qs)

theorem parse_condition_inv {ts : List Token} {c : Condition} {ts' : List Token}
    (hts : NumOk ts) (h : parse_condition ts = .ok (c, ts')) :
    CondInv c ∧ SubOf ts' ts := by
  simp only [parse_condition, Bind.bind, Except.bind, pure, Except.pure] at h
  split at h
  · simp at h
  · rename_i v1 heq1
    obtain ⟨ct1, ts1⟩ := v1
    obtain ⟨hct1, hsub1⟩ := parse_kind_inv heq1
    split at h
    · simp at h
    · rename_i v2 heq2
      obtain ⟨ct2, qopt, ts2⟩ := v2
      obtain ⟨hinv2, hsub2⟩ := parseQuantPrefix_inv (NumOk.sub hsub1 hts) heq2
      split at h
      · simp at h
      · rename_i v3 heq3
        obtain ⟨vt, ts3⟩ := v3
        obtain ⟨_, _, hadv3⟩ := expectTok_ok heq3
        simp only [Except.ok.injEq, Prod.mk.injEq] at h
        obtain ⟨hcrec, hts'⟩ := h
        constructor
        · rw [← hcrec]
          constructor
          · intro hne
            rcases hinv2 with ⟨_, hq⟩ | ⟨hrep, _⟩
            · exact hq
            · exact absurd hrep hne
          · intro hrep
            rcases hinv2 with ⟨hctEq, _⟩ | ⟨_, hex⟩
            · exact absurd (hctEq ▸ hrep) hct1
            · exact hex
        · rw [← hts']
          exact SubOf.trans (hadv3 ▸ advance_subOf ts2) (SubOf.trans hsub2 hsub1)

theorem parse_conditions_loop_inv :
    ∀ (fuel : Nat) (acc : List Condition) (ts : List Token) (cs : List Condition)
      (ts' : List Token), NumOk ts → parse_conditions_loop fuel acc ts = .ok (cs, ts') →
      ∀ c ∈ cs, c ∈ acc ∨ CondInv c := by
  intro fuel
  induction fuel with
  | zero =>
    intro acc ts cs ts' _ h
    simp only [parse_conditions_loop, Except.ok.injEq, Prod.mk.injEq] at h
    intro c hc
    left
    rw [h.1]
    exact hc
  | succ n ih =>
    intro acc ts cs ts' hts h
    simp only [parse_conditions_loop] at h
    split at h
    · rcases heqO : optionalTok .KEYWORD (some "NOT") (advanceTokens ts) with ⟨negTok, tsb⟩
      rw [heqO] at h
      dsimp only at h
      rcases heqC : parse_condition tsb with e | ⟨nc, tsc⟩
      · rw [heqC] at h
        simp at h
      · rw [heqC] at h
        dsimp only at h
        have hsubB : SubOf tsb ts :=
          SubOf.trans (optionalTok_any_subOf heqO) (advance_subOf ts)
        obtain ⟨hInv, hsubC⟩ := parse_condition_inv (NumOk.sub hsubB hts) heqC
        intro c hc
        rcases ih _ _ _ _ (NumOk.sub (SubOf.trans hsubC hsubB) hts) h c hc with hmem | hinv
        · rcases List.mem_append.mp hmem with hacc | hnew
          · exact Or.inl hacc
          · rw [List.mem_singleton] at hnew
            subst hnew
            exact Or.inr hInv
        · exact Or.inr hinv
    · simp only [Except.ok.injEq, Prod.mk.injEq] at h
      intro c hc
      left
      rw [h.1]
      exact hc

theorem parse_conditions_inv {ts : List Token} {cs : List Condition} {ts' : List Token}
    (hts : NumOk ts) (h : parse_conditions ts = .ok (cs, ts')) :
    ∀ c ∈ cs, CondInv c := by
  simp only [parse_conditions, Bind.bind, Except.bind] at h
  split at h
  · simp at h
  · rename_i v heq
    obtain ⟨c0, ts1⟩ := v
    obtain ⟨hc0, hsub1⟩ := parse_condition_inv hts heq
    intro c hc
    rcases parse_conditions_loop_inv _ _ _ _ _ (NumOk.sub hsub1 hts) h c hc with hmem | hinv
    · rw [List.mem_singleton] at hmem
      subst hmem
      exact hc0
    · exact hinv

/-- C6 counterexample, two independent violations.  First, the parser
accepts BETWEEN 5 AND 2 TIMES, producing the quantifier `{5,2}` whose
lower bound exceeds its upper bound (the regex facility rejects such a
count at compile time).  Second, the tokenizer's digit test is
Unicode-aware, so EXACTLY ٣ TIMES (with the Arabic-Indic digit three,
U+0663) is accepted and produces the quantifier `{٣}`, which the regex
count syntax does not read as a repetition count at all (the engine treats
the braces as literal text), refuting the claimed syntactic validity. -/
theorem c6_counterexample :
    ((parseQuery "SELECT LINES FROM \"f\" WHERE BETWEEN 5 AND 2 TIMES \"a\"").map
      (fun q => q.conditions.map (fun c => (c.type, c.quantifier))) =
      .ok [(ConditionType.REPEAT, some "\x7b5,2\x7d")] ∧
      parseQuant "\x7b5,2\x7d" = some (5, some 2) ∧ ¬ (5 ≤ 2)) ∧
    ((parseQuery "SELECT LINES FROM \"f\" WHERE EXACTLY ٣ TIMES \"a\"").map
      (fun q => q.conditions.map (fun c => (c.type, c.quantifier))) =
      .ok [(ConditionType.REPEAT, some "\x7b٣\x7d")] ∧
      parseQuant "\x7b٣\x7d" = none) := by
  refine ⟨⟨by decide, by decide, by decide⟩, by decide, by decide⟩

/-- C6 (amended): for every query text the parser accepts, every condition
whose kind is not REPEAT has an absent quantifier, and every REPEAT
condition carries a quantifier string of one of the four interpolated
shapes `{n,}`, `{n}`, `{0,n}`, `{n,m}` with `n`, `m` non-empty runs of
(Unicode-aware) decimal digits; whenever the characters involved are ASCII,
the regex facility reads that string as a syntactically valid
bounded-or-unbounded repetition count.  The parser guarantees neither that
the digits are ASCII (EXACTLY ٣ TIMES yields `{٣}`, which the facility
treats as literal text, not a count) nor that the lower bound is at most
the upper bound (BETWEEN 5 AND 2 yields `{5,2}`); see the counterexample
for both. -/
theorem c6_amended (text : String) (q : Query) (hq : parseQuery text = .ok q) :
    ∀ c ∈ q.conditions, (c.type ≠ .REPEAT → c.quantifier = none) ∧
      (c.type = .REPEAT →
        ∃ qs, c.quantifier = some qs ∧ QuantShape qs ∧
          ((∀ ch ∈ qs.data, ch.isDigit = true ∨ ch = lbrace ∨ ch = rbrace ∨ ch = ',') →
            ∃ lo hi, parseQuant qs = some (lo, hi))) := by
  have hpt : ∃ ts, tokenize text = .ok ts ∧ parseTokens ts = .ok q := by
    simp only [parseQuery, Bind.bind, Except.bind] at hq
    split at hq
    · simp at hq
    · rename_i ts hts
      exact ⟨ts, hts, hq⟩
  obtain ⟨ts, htok, hptok⟩ := hpt
  have hnum : NumOk ts := tokenize0_numOk _ _ _ _ _ htok
  rcases parseTokens_conditions_source hptok with hnil | ⟨ts1, cs, ts2, hsub, hpc, hcs⟩
  · rw [hnil]
    intro c hc
    cases hc
  · intro c hc
    rw [hcs] at hc
    have hCI := parse_conditions_inv (NumOk.sub hsub hnum) hpc c hc
    refine ⟨hCI.1, fun hrep => ?_⟩
    obtain ⟨qs, hq1, hsh⟩ := hCI.2 hrep
    exact ⟨qs, hq1, hsh, fun hascii => quantShape_ascii hsh hascii⟩

/-- The REPEAT condition parsed from AT LEAST 2 TIMES "x". -/
def c6wCond : Condition := { type := .REPEAT, value := "x", quantifier := some "\x7b2,\x7d" }

/-- The query parsed from the C6 witness text. -/
def c6wQuery : Query := { conditions := [c6wCond], file_pattern := some "f" }

/-- C6 witness: on the query AT LEAST 2 TIMES "x" the parsed REPEAT
condition carries the quantifier `{2,}`, which reads as the unbounded count
with lower bound 2. -/
theorem c6_witness :
    (c6wCond.type ≠ ConditionType.REPEAT → c6wCond.quantifier = none) ∧
    (c6wCond.type = ConditionType.REPEAT →
      ∃ qs, c6wCond.quantifier = some qs ∧ QuantShape qs ∧
        ((∀ ch ∈ qs.data, ch.isDigit = true ∨ ch = lbrace ∨ ch = rbrace ∨ ch = ',') →
          ∃ lo hi, parseQuant qs = some (lo, hi))) :=
  c6_amended "SELECT LINES FROM \"f\" WHERE AT LEAST 2 TIMES \"x\"" c6wQuery (by decide)
    c6wCond (by decide)

end TextQuery
